import Mathlib

/-!
# Artifact record service (`src/index.js`)

A shallow embedding of the Express handlers of `src/index.js` over a model of
the document collection `artifactDataCollection`.

* Request bodies are parsed JSON objects (`express.json()`), documents are
  ordered field lists (BSON documents).
* JSON numbers are modelled by `Int`; `new Date()` is a timestamp parameter.
* The collection is a list of documents in natural (insertion) order plus the
  counter from which the driver draws fresh `ObjectId`s.
* The store's command language (query operators, update paths, regular
  expressions, sort keys) is modelled on the fragment documented at each
  definition.  A command outside that fragment evaluates to `Res.beyond`, so
  nothing is ever asserted about it; a command the real store rejects
  evaluates to `Res.raise`, which the handlers' `catch` turns into a 500.
* The store is the one the source connects to: a server of the stable API
  version 1 (`ServerApiVersion.v1`, `strict`), where an empty `$set` is a
  no-op, and a driver whose `findOneAndUpdate` resolves to the document
  itself, as the handlers' `if (!result)` and `res.json(result)` expect.
* Each handler runs to completion on the collection it is given: requests
  are not interleaved.
* Documents are taken to stay within the store's limits on size and nesting
  depth, and numbers within the range in which the store counts exactly.
-/

namespace Artifacts

/-! ## JSON / BSON values -/

/-- JSON values as delivered by `express.json()`, extended with the two BSON
scalars the server itself creates (`new Date()`, `new ObjectId(..)`). -/
inductive JVal where
  | null
  | bool (b : Bool)
  | num (n : Int)
  | str (s : String)
  | arr (xs : List JVal)
  | obj (fs : List (String × JVal))
  | date (t : Nat)
  | oid (n : Nat)

/-- Objects / documents: ordered lists of fields. -/
abbrev JObj := List (String × JVal)

namespace JVal

mutual
/-- Decision procedure for equality of values. -/
def decEq : (a b : JVal) → Decidable (a = b)
  | null, null => isTrue rfl
  | bool a, bool b => if h : a = b then isTrue (h ▸ rfl) else isFalse (fun e => h (bool.inj e))
  | num a, num b => if h : a = b then isTrue (h ▸ rfl) else isFalse (fun e => h (num.inj e))
  | str a, str b => if h : a = b then isTrue (h ▸ rfl) else isFalse (fun e => h (str.inj e))
  | date a, date b => if h : a = b then isTrue (h ▸ rfl) else isFalse (fun e => h (date.inj e))
  | oid a, oid b => if h : a = b then isTrue (h ▸ rfl) else isFalse (fun e => h (oid.inj e))
  | arr a, arr b =>
      match decEqList a b with
      | isTrue h => isTrue (h ▸ rfl)
      | isFalse h => isFalse (fun e => h (arr.inj e))
  | obj a, obj b =>
      match decEqFields a b with
      | isTrue h => isTrue (h ▸ rfl)
      | isFalse h => isFalse (fun e => h (obj.inj e))
  | null, bool _ | null, num _ | null, str _ | null, arr _
  | null, obj _ | null, date _ | null, oid _ =>
      isFalse (fun e => JVal.noConfusion e)
  | bool _, null | bool _, num _ | bool _, str _ | bool _, arr _
  | bool _, obj _ | bool _, date _ | bool _, oid _ =>
      isFalse (fun e => JVal.noConfusion e)
  | num _, null | num _, bool _ | num _, str _ | num _, arr _
  | num _, obj _ | num _, date _ | num _, oid _ =>
      isFalse (fun e => JVal.noConfusion e)
  | str _, null | str _, bool _ | str _, num _ | str _, arr _
  | str _, obj _ | str _, date _ | str _, oid _ =>
      isFalse (fun e => JVal.noConfusion e)
  | arr _, null | arr _, bool _ | arr _, num _ | arr _, str _
  | arr _, obj _ | arr _, date _ | arr _, oid _ =>
      isFalse (fun e => JVal.noConfusion e)
  | obj _, null | obj _, bool _ | obj _, num _ | obj _, str _
  | obj _, arr _ | obj _, date _ | obj _, oid _ =>
      isFalse (fun e => JVal.noConfusion e)
  | date _, null | date _, bool _ | date _, num _ | date _, str _
  | date _, arr _ | date _, obj _ | date _, oid _ =>
      isFalse (fun e => JVal.noConfusion e)
  | oid _, null | oid _, bool _ | oid _, num _ | oid _, str _
  | oid _, arr _ | oid _, obj _ | oid _, date _ =>
      isFalse (fun e => JVal.noConfusion e)
/-- Decision procedure for equality of arrays. -/
def decEqList : (a b : List JVal) → Decidable (a = b)
  | [], [] => isTrue rfl
  | [], _ :: _ => isFalse (fun e => List.noConfusion e)
  | _ :: _, [] => isFalse (fun e => List.noConfusion e)
  | x :: xs, y :: ys =>
      match decEq x y, decEqList xs ys with
      | isTrue h1, isTrue h2 => isTrue (h1 ▸ h2 ▸ rfl)
      | isFalse h1, _ => isFalse (fun e => h1 (List.cons.inj e).1)
      | _, isFalse h2 => isFalse (fun e => h2 (List.cons.inj e).2)
/-- Decision procedure for equality of field lists (field order is significant). -/
def decEqFields : (a b : List (String × JVal)) → Decidable (a = b)
  | [], [] => isTrue rfl
  | [], _ :: _ => isFalse (fun e => List.noConfusion e)
  | _ :: _, [] => isFalse (fun e => List.noConfusion e)
  | (k, x) :: xs, (l, y) :: ys =>
      if hk : k = l then
        match decEq x y, decEqFields xs ys with
        | isTrue h1, isTrue h2 => isTrue (hk ▸ h1 ▸ h2 ▸ rfl)
        | isFalse h1, _ => isFalse (fun e => h1 (Prod.mk.inj (List.cons.inj e).1).2)
        | _, isFalse h2 => isFalse (fun e => h2 (List.cons.inj e).2)
      else isFalse (fun e => hk (Prod.mk.inj (List.cons.inj e).1).1)
end

instance : DecidableEq JVal := decEq

end JVal

open JVal

/-! ## Object fields (JavaScript property access, `delete`, spread) -/

/-- Property read `o[k]`; `none` is JavaScript's `undefined`. -/
def getField (k : String) : JObj → Option JVal
  | [] => none
  | (k', v) :: fs => if k' = k then some v else getField k fs

/-- The statement `delete o[k]`. -/
def delField (k : String) (o : JObj) : JObj :=
  o.filter (fun p => decide (p.1 ≠ k))

/-- Writing a field: an existing field keeps its position, a new one is
appended (object spread `{...o, k: v}` and a one-component `$set`). -/
def setField (k : String) (v : JVal) : JObj → JObj
  | [] => [(k, v)]
  | (k', v') :: fs =>
      if k' = k then (k, v) :: fs else (k', v') :: setField k v fs

/-- JavaScript truthiness of a possibly `undefined` JSON value: `undefined`,
`null`, `false`, `0` and `""` are falsy, everything else (every object and
array included) is truthy. -/
def truthy : Option JVal → Bool
  | none => false
  | some .null => false
  | some (.bool b) => b
  | some (.num n) => decide (n ≠ 0)
  | some (.str s) => decide (s ≠ "")
  | some _ => true

/-- Is the character U+0000 absent from the name?  BSON writes field names
as zero-terminated strings, so the driver refuses a name that contains it. -/
def nulFreeName (k : String) : Bool := decide (Char.ofNat 0 ∉ k.data)

mutual
/-- Can the driver serialise the value: no field name in it, at any depth,
contains U+0000? -/
def nulFree : JVal → Bool
  | .obj fs => nulFreeFields fs
  | .arr xs => nulFreeList xs
  | _ => true
/-- Can the driver serialise the fields? -/
def nulFreeFields : List (String × JVal) → Bool
  | [] => true
  | (k, v) :: fs => nulFreeName k && nulFree v && nulFreeFields fs
/-- Can the driver serialise the elements? -/
def nulFreeList : List JVal → Bool
  | [] => true
  | x :: xs => nulFree x && nulFreeList xs
end

/-! ## Outcomes of store commands -/

/-- Outcome of a command sent to the store. -/
inductive Res (α : Type) where
  /-- the command ran -/
  | ok (a : α)
  /-- the driver or the server rejects the command (an exception in the handler) -/
  | raise
  /-- the command is outside the modelled fragment of the store's language -/
  | beyond
  deriving DecidableEq

namespace Res

/-- Sequencing of store outcomes. -/
def bind {α β : Type} : Res α → (α → Res β) → Res β
  | ok a, f => f a
  | raise, _ => raise
  | beyond, _ => beyond

/-- Functorial action on store outcomes. -/
def map {α β : Type} (f : α → β) : Res α → Res β
  | ok a => ok (f a)
  | raise => raise
  | beyond => beyond

end Res

/-! ## ObjectId -/

/-- Value of a hexadecimal digit. -/
def hexDigit (c : Char) : Option Nat :=
  if '0' ≤ c ∧ c ≤ '9' then some (c.toNat - '0'.toNat)
  else if 'a' ≤ c ∧ c ≤ 'f' then some (c.toNat - 'a'.toNat + 10)
  else if 'A' ≤ c ∧ c ≤ 'F' then some (c.toNat - 'A'.toNat + 10)
  else none

/-- Reading a hexadecimal numeral, most significant digit first. -/
def hexValue : List Char → Nat → Option Nat
  | [], acc => some acc
  | c :: cs, acc =>
      match hexDigit c with
      | some d => hexValue cs (16 * acc + d)
      | none => none

/-- The value `new ObjectId(id)` denotes for a route parameter `id`: defined
exactly for the strings of 24 hexadecimal digits (letter case does not
matter). -/
def parseObjectId (id : String) : Option Nat :=
  if id.data.length = 24 then hexValue id.data 0 else none

/-- `ObjectId.isValid(id)` for a route parameter (a string). -/
def ObjectId.isValid (id : String) : Bool := (parseObjectId id).isSome

/-! ## Queries -/

/-- Splitting a field path at its dots. -/
def splitDots : List Char → List (List Char)
  | [] => [[]]
  | c :: cs =>
      match splitDots cs with
      | [] => [[]]
      | p :: ps => if c = '.' then [] :: p :: ps else (c :: p) :: ps

/-- The components of a dotted field path. -/
def splitPath (path : String) : List String :=
  (splitDots path.data).map String.mk

/-- Does the field name start with a dollar sign? -/
def dollarName (k : String) : Bool := decide (k.data.head? = some '$')

/-- Value reached from `v` along a path, for query matching.  `ok none` means
the path does not exist in the document.  Paths that cross an array (the
store then ranges over the elements) are outside the modelled fragment. -/
def resolvePath : List String → JVal → Res (Option JVal)
  | [], v => .ok (some v)
  | c :: cs, obj fs =>
      match getField c fs with
      | none => .ok none
      | some v => resolvePath cs v
  | _ :: _, arr _ => .beyond
  | _ :: _, _ => .ok none

/-- Equality match of a resolved field against a query constant: the field
equals the constant, or is an array with an element equal to it; the constant
`null` also matches a missing field. -/
def eqMatch (field : Option JVal) (q : JVal) : Bool :=
  match field with
  | none => decide (q = null)
  | some (arr xs) => decide (arr xs = q) || decide (q ∈ xs)
  | some v => decide (v = q)

/-- Compiled form of the value part of a query condition. -/
inductive Pred where
  | eq (v : JVal)
  | ne (v : JVal)

/-- Operator document `{$eq: v, $ne: w, ...}`.  Only `$eq` and `$ne` are
modelled. -/
def compileOps : JObj → Res (List Pred)
  | [] => .ok []
  | (k, v) :: rest =>
      if k = "$eq" then (compileOps rest).map (fun ps => Pred.eq v :: ps)
      else if k = "$ne" then (compileOps rest).map (fun ps => Pred.ne v :: ps)
      else .beyond

/-- The value part of a query condition `{path: q}` as the store reads it: a
document whose first field name starts with `$` is an operator expression,
anything else is a constant to compare with. -/
def compileValue : JVal → Res (List Pred)
  | obj ((k, v) :: rest) =>
      if dollarName k then compileOps ((k, v) :: rest) else .ok [Pred.eq (obj ((k, v) :: rest))]
  | q => .ok [Pred.eq q]

/-- One compiled predicate on a resolved field. -/
def Pred.holds (field : Option JVal) : Pred → Bool
  | .eq v => eqMatch field v
  | .ne v => !eqMatch field v

/-- A query is a conjunction of conditions `path: value`. -/
abbrev Query := List (String × JVal)

/-- Compiled query: each path with its predicates. -/
abbrev CQuery := List (List String × List Pred)

/-- Reading a query document; fails before any document is looked at.  The
driver refuses a value it cannot serialise. -/
def compileQuery : Query → Res CQuery
  | [] => .ok []
  | (p, q) :: rest =>
      if nulFree q then
        (compileValue q).bind fun ps =>
          (compileQuery rest).map fun cs => (splitPath p, ps) :: cs
      else .raise

/-- Does the document satisfy the compiled query?  Conditions are tested from
left to right and the first failing one decides. -/
def matchDoc (doc : JObj) : CQuery → Res Bool
  | [] => .ok true
  | (path, ps) :: rest =>
      (resolvePath path (obj doc)).bind fun field =>
        if ps.all (Pred.holds field) then matchDoc doc rest else .ok false

/-- First matching document of a list, in natural order. -/
def firstMatch (q : CQuery) : List JObj → Res (Option JObj)
  | [] => .ok none
  | d :: ds =>
      (matchDoc d q).bind fun b => if b then .ok (some d) else firstMatch q ds

/-- All matching documents of a list, in natural order. -/
def allMatches (q : CQuery) : List JObj → Res (List JObj)
  | [] => .ok []
  | d :: ds =>
      (matchDoc d q).bind fun b =>
        (allMatches q ds).map fun r => if b then d :: r else r

/-- A JavaScript value placed in a query: the driver serialises `undefined`
as BSON null. -/
def bson : Option JVal → JVal
  | none => null
  | some v => v

/-! ## Regular expressions (`$regex` with option `i`) -/

/-- One position of a pattern: a literal character or the dot. -/
inductive Atom where
  | lit (c : Char)
  | any
  deriving DecidableEq

/-- Repetition attached to an atom. -/
inductive Quant where
  | one
  | star
  | plus
  | opt
  deriving DecidableEq

/-- Lexical classes of the modelled pattern language. -/
inductive Tok where
  | atom (a : Atom)
  | quant (q : Quant)
  deriving DecidableEq

/-- Modelled patterns: a sequence of atoms, each with a repetition. -/
abbrev Pattern := List (Atom × Quant)

/-- The characters with a special meaning in a pattern. -/
def metaChars : List Char :=
  [Char.ofNat 92, '^', '$', '.', '|', '?', '*', '+', '(', ')', '[', ']', Char.ofNat 123,
    Char.ofNat 125]

/-- Is the text made of ASCII characters only? -/
def asciiText (cs : List Char) : Bool := cs.all fun c => decide (c.toNat < 128)

/-- Lexing of a pattern.  A backslash followed by a special character is that
character taken literally; a backslash at the end is rejected by the store.
Other escapes, anchors, alternation, groups, classes and counted repetition
are outside the modelled fragment, and so is every character beyond ASCII
(the store folds letter case by Unicode). -/
def lexPattern : List Char → Res (List Tok)
  | [] => .ok []
  | c :: cs =>
      if 128 ≤ c.toNat then .beyond
      else if c = Char.ofNat 92 then
        match cs with
        | [] => .raise
        | d :: ds =>
            if d ∈ metaChars then (lexPattern ds).map (fun ts => Tok.atom (.lit d) :: ts)
            else .beyond
      else if c = '.' then (lexPattern cs).map (fun ts => Tok.atom .any :: ts)
      else if c = '*' then (lexPattern cs).map (fun ts => Tok.quant .star :: ts)
      else if c = '+' then (lexPattern cs).map (fun ts => Tok.quant .plus :: ts)
      else if c = '?' then (lexPattern cs).map (fun ts => Tok.quant .opt :: ts)
      else if c ∈ metaChars then .beyond
      else (lexPattern cs).map (fun ts => Tok.atom (.lit c) :: ts)

/-- Grouping of atoms with their repetition.  A repetition with nothing to
repeat is rejected by the store; a repetition that follows a repetition (lazy
and possessive forms) is outside the modelled fragment. -/
def groupToks : List Tok → Res Pattern
  | [] => .ok []
  | Tok.quant _ :: _ => .raise
  | Tok.atom _ :: Tok.quant _ :: Tok.quant _ :: _ => .beyond
  | Tok.atom a :: Tok.quant q :: ts => (groupToks ts).map (fun p => (a, q) :: p)
  | Tok.atom a :: ts => (groupToks ts).map (fun p => (a, Quant.one) :: p)

/-- Reading the pattern string of a `$regex`.  The store rejects a pattern
with an embedded U+0000. -/
def parsePattern (pat : String) : Res Pattern :=
  if Char.ofNat 0 ∈ pat.data then .raise
  else (lexPattern pat.data).bind groupToks

/-- Does the atom accept the character, ignoring letter case (option `i`)?
Both are ASCII characters wherever this is used, so case folding is that of
the ASCII letters.  The dot accepts everything but a line feed. -/
def atomMatches (a : Atom) (c : Char) : Bool :=
  match a with
  | .lit x => decide (x.toLower = c.toLower)
  | .any => decide (c ≠ Char.ofNat 10)

/-- Zero or more characters accepted by the atom, then the continuation. -/
def matchStar (a : Atom) (k : List Char → Bool) : List Char → Bool
  | [] => k []
  | c :: cs => k (c :: cs) || (atomMatches a c && matchStar a k cs)

/-- Does the pattern match at the start of the text? -/
def matchHere : Pattern → List Char → Bool
  | [], _ => true
  | (a, .one) :: p, cs =>
      match cs with
      | [] => false
      | c :: cs' => atomMatches a c && matchHere p cs'
  | (a, .opt) :: p, cs =>
      matchHere p cs ||
        (match cs with
         | [] => false
         | c :: cs' => atomMatches a c && matchHere p cs')
  | (a, .star) :: p, cs => matchStar a (matchHere p) cs
  | (a, .plus) :: p, cs =>
      match cs with
      | [] => false
      | c :: cs' => atomMatches a c && matchStar a (matchHere p) cs'

/-- Does the pattern match somewhere in the text (a `$regex` is not anchored)? -/
def matchAnywhere (p : Pattern) : List Char → Bool
  | [] => matchHere p []
  | c :: cs => matchHere p (c :: cs) || matchAnywhere p cs

/-- The pattern on one string.  A string with a character beyond ASCII is
outside the modelled fragment (the store folds letter case by Unicode). -/
def regexOnString (p : Pattern) (s : String) : Res Bool :=
  if asciiText s.data then .ok (matchAnywhere p s.data) else .beyond

/-- The pattern on the elements of an array: some string element matches. -/
def regexOnElems (p : Pattern) : List JVal → Res Bool
  | [] => .ok false
  | .str s :: xs =>
      (regexOnString p s).bind fun b => (regexOnElems p xs).map fun r => b || r
  | _ :: xs => regexOnElems p xs

/-- The condition `{ field: { $regex: .., $options: "i" } }` on a resolved
field: a string matches when the pattern matches in it, an array when one of
its string elements does, anything else does not. -/
def regexMatch (p : Pattern) : Option JVal → Res Bool
  | some (.str s) => regexOnString p s
  | some (.arr xs) => regexOnElems p xs
  | _ => .ok false

/-- The documents of a list whose `name` satisfies the pattern. -/
def regexMatches (p : Pattern) : List JObj → Res (List JObj)
  | [] => .ok []
  | d :: ds =>
      (regexMatch p (getField "name" d)).bind fun b =>
        (regexMatches p ds).map fun r => if b then d :: r else r

/-! ## Updates -/

/-- A canonical decimal numeral (an array index in an update path). -/
def parseIndex (c : String) : Option Nat :=
  if c.data = [] then none
  else if c.data.all Char.isDigit ∧ (c.data.head? ≠ some '0' ∨ c.data.length = 1) then
    some (c.data.foldl (fun n d => 10 * n + (d.toNat - '0'.toNat)) 0)
  else none

/-- The largest number of `null`s an update may pad an array with. -/
def maxPadding : Nat := 1500000

/-- The document `{c1: {c2: ... {cn: v}}}` that `$set` creates for the part
of a path that does not exist yet. -/
def nestNew : List String → JVal → JVal
  | [], v => v
  | c :: cs, v => obj [(c, nestNew cs v)]

/-- Can the rest of a path be created afresh?  The store rejects an empty
component; components starting with `$` are outside the modelled fragment. -/
def freshPath (cs : List String) : Res Unit :=
  if cs.any (fun d => decide (d = "")) then .raise
  else if cs.any dollarName then .beyond
  else .ok ()

mutual
/-- The operation `$set` along a path inside a value: embedded documents are
entered by field name, arrays by index (an index at or past the end pads the
array with `null`), missing parts are created as embedded documents.  The
store rejects an empty component, a path through a scalar, a field name
applied to an array and excessive padding.  Components starting with `$`
(positional operators) are outside the modelled fragment. -/
def setPath : JVal → List String → JVal → Res JVal
  | _, [], v => .ok v
  | obj fs, c :: cs, v =>
      if c = "" then .raise
      else if dollarName c then .beyond
      else (setPathFields fs c cs v).map obj
  | arr xs, c :: cs, v =>
      if c = "" then .raise
      else if dollarName c then .beyond
      else
        match parseIndex c with
        | none => .raise
        | some i =>
            if xs.length + maxPadding < i then .raise
            else (setPathElems xs i cs v).map arr
  | _, _ :: _, _ => .raise
/-- Setting inside the field `c` of a field list. -/
def setPathFields : JObj → String → List String → JVal → Res JObj
  | [], c, cs, v => (freshPath cs).map (fun _ => [(c, nestNew cs v)])
  | (k, w) :: fs, c, cs, v =>
      if k = c then (setPath w cs v).map (fun w' => (k, w') :: fs)
      else (setPathFields fs c cs v).map (fun fs' => (k, w) :: fs')
/-- Setting inside element `i` of an array. -/
def setPathElems : List JVal → Nat → List String → JVal → Res (List JVal)
  | [], i, cs, v =>
      (freshPath cs).map (fun _ => List.replicate i null ++ [nestNew cs v])
  | x :: xs, 0, cs, v => (setPath x cs v).map (fun x' => x' :: xs)
  | x :: xs, i + 1, cs, v => (setPathElems xs i cs v).map (fun r => x :: r)
end

/-- Two update paths conflict when one is an initial segment of the other. -/
def conflicting : List (List String) → Bool
  | [] => false
  | p :: ps => ps.any (fun q => p.isPrefixOf q || q.isPrefixOf p) || conflicting ps

/-- One `$set` entry applied to a document. -/
def setDocPath (doc : JObj) (path : List String) (v : JVal) : Res JObj :=
  match path with
  | [] => .raise
  | c :: cs =>
      if c = "" then .raise
      else if dollarName c then .beyond
      else setPathFields doc c cs v

/-- The entries of a `$set` applied one after the other. -/
def setAll : JObj → JObj → Res JObj
  | doc, [] => .ok doc
  | doc, (k, v) :: rest => (setDocPath doc (splitPath k) v).bind fun doc' => setAll doc' rest

/-- The update `{ $set: updateData }` on one document.  The driver refuses
an update it cannot serialise; the store rejects conflicting paths and any
change of `_id`; an empty `$set` changes nothing. -/
def applySet (updateData : JObj) (doc : JObj) : Res JObj :=
  if !nulFree (obj updateData) then .raise
  else if conflicting (updateData.map fun e => splitPath e.1) then .raise
  else
    (setAll doc updateData).bind fun doc' =>
      if getField "_id" doc' = getField "_id" doc then .ok doc' else .raise

/-- The `$inc: { likes: 1 }` half of the like update. -/
def incLikes (doc : JObj) : Res JObj :=
  match getField "likes" doc with
  | none => .ok (setField "likes" (num 1) doc)
  | some (.num n) => .ok (setField "likes" (num (n + 1)) doc)
  | some _ => .raise

/-- The `$push: { likedBy: userId }` half of the like update. -/
def pushLikedBy (userId : JVal) (doc : JObj) : Res JObj :=
  match getField "likedBy" doc with
  | none => .ok (setField "likedBy" (arr [userId]) doc)
  | some (.arr xs) => .ok (setField "likedBy" (arr (xs ++ [userId])) doc)
  | some _ => .raise

/-- Is the pushed value read as a modifier document (`$each`, ...)? -/
def modifierDoc : JVal → Bool
  | .obj fs => fs.any fun e => dollarName e.1
  | _ => false

/-- The update `{ $inc: { likes: 1 }, $push: { likedBy: userId } }` on one
document: both halves or neither.  The driver refuses a value it cannot
serialise; a pushed value with `$` field names is outside the modelled
fragment. -/
def applyLike (userId : JVal) (doc : JObj) : Res JObj :=
  if !nulFree userId then .raise
  else if modifierDoc userId then .beyond
  else (incLikes doc).bind (pushLikedBy userId)

/-! ## The collection -/

/-- State of `artifactDataCollection`: the documents in natural order and the
counter behind the driver's fresh `ObjectId`s. -/
structure Store where
  docs : List JObj
  next : Nat
  deriving DecidableEq

/-- The `_id`s in use. -/
def Store.ids (s : Store) : List (Option JVal) := s.docs.map (getField "_id")

/-- The call `insertOne(doc)`.  The driver gives a document whose `_id` is
missing or `null` a fresh `ObjectId` and keeps any other supplied `_id`; it
refuses a document it cannot serialise.  The stored document has `_id` as
its first field.  The store rejects an array as `_id` and an `_id` already
in use.  A document as `_id` is outside the modelled fragment. -/
def insertOne (s : Store) (doc : JObj) : Res (JVal × Store) :=
  if !nulFree (obj doc) then .raise
  else
    match getField "_id" doc with
    | none =>
        if some (oid s.next) ∈ s.ids then .raise
        else .ok (oid s.next, ⟨s.docs ++ [("_id", oid s.next) :: doc], s.next + 1⟩)
    | some .null =>
        if some (oid s.next) ∈ s.ids then .raise
        else .ok (oid s.next,
          ⟨s.docs ++ [("_id", oid s.next) :: delField "_id" doc], s.next + 1⟩)
    | some (.arr _) => .raise
    | some (.obj _) => .beyond
    | some v =>
        if some v ∈ s.ids then .raise
        else .ok (v, ⟨s.docs ++ [("_id", v) :: delField "_id" doc], s.next⟩)

/-- The call `find(query).toArray()`. -/
def find (s : Store) (query : Query) : Res (List JObj) :=
  (compileQuery query).bind fun q => allMatches q s.docs

/-- The call `findOne(query)`; `none` is JavaScript's `null`. -/
def findOne (s : Store) (query : Query) : Res (Option JObj) :=
  (compileQuery query).bind fun q => firstMatch q s.docs

/-- Rewriting the first matching document of a list. -/
def updateFirst (q : CQuery) (upd : JObj → Res JObj) :
    List JObj → Res (Option JObj × List JObj)
  | [] => .ok (none, [])
  | d :: ds =>
      (matchDoc d q).bind fun b =>
        if b then (upd d).map fun d' => (some d', d' :: ds)
        else (updateFirst q upd ds).map fun r => (r.1, d :: r.2)

/-- The call `findOneAndUpdate(query, update, { returnDocument: "after" })`,
returning the updated document, or `null` when none matches. -/
def findOneAndUpdate (s : Store) (query : Query) (upd : JObj → Res JObj) :
    Res (Option JObj × Store) :=
  (compileQuery query).bind fun q =>
    (updateFirst q upd s.docs).map fun r => (r.1, ⟨r.2, s.next⟩)

/-- Removing the first matching document of a list, with the count removed. -/
def removeFirst (q : CQuery) : List JObj → Res (Nat × List JObj)
  | [] => .ok (0, [])
  | d :: ds =>
      (matchDoc d q).bind fun b =>
        if b then .ok (1, ds)
        else (removeFirst q ds).map fun r => (r.1, d :: r.2)

/-- The call `deleteOne(query)`, returning `deletedCount`. -/
def deleteOne (s : Store) (query : Query) : Res (Nat × Store) :=
  (compileQuery query).bind fun q =>
    (removeFirst q s.docs).map fun r => (r.1, ⟨r.2, s.next⟩)

/-- The call `find({ name: { $regex: name, $options: "i" } }).toArray()`. -/
def findByNameRegex (s : Store) (name : String) : Res (List JObj) :=
  (parsePattern name).bind fun p => regexMatches p s.docs

/-- Numeric sort key of a document under `sort({ likes: -1 })`. -/
def likesKey (d : JObj) : Option Int :=
  match getField "likes" d with
  | some (.num n) => some n
  | _ => none

/-- The `likes` of a document as a number (0 when it has none). -/
def likesOf (d : JObj) : Int := (likesKey d).getD 0

/-- The call `find({}).sort({ likes: -1 }).limit(6).toArray()`.  Documents
with equal `likes` stay in natural order (the store leaves their order open).
Sorting on `likes` values that are not numbers is outside the modelled
fragment. -/
def findTopLiked (s : Store) : Res (List JObj) :=
  if s.docs.all (fun d => (likesKey d).isSome) then
    .ok ((s.docs.insertionSort (fun a b => likesOf b ≤ likesOf a)).take 6)
  else .beyond

/-! ## The handlers -/

/-- What a handler sends: `res.status(status).json(body)`. -/
structure Response where
  status : Nat
  body : JVal
  deriving DecidableEq

/-- A handled request: the response and the collection afterwards; `none`
when the request drives the store outside the modelled fragment. -/
abbrev Handled := Option (Response × Store)

/-- The body `{ error: msg }`. -/
def errorBody (msg : String) : JVal := obj [("error", str msg)]

/-- A list of documents as a JSON array. -/
def docsBody (ds : List JObj) : JVal := arr (ds.map obj)

/-- Handler `GET /artifacts` (the spec's `listAll`). -/
def getArtifacts (s : Store) : Handled :=
  match find s [] with
  | .ok artifacts => some (⟨200, docsBody artifacts⟩, s)
  | .raise => some (⟨500, errorBody "Failed to fetch artifacts"⟩, s)
  | .beyond => none

/-- Handler `GET /artifacts/search` (the spec's `search`); `name` is the
query-string parameter `req.query.name` when it is a string, `none` when it
is absent. -/
def searchArtifacts (s : Store) (name : Option String) : Handled :=
  if !truthy (name.map str) then
    match find s [] with
    | .ok allArtifacts => some (⟨200, docsBody allArtifacts⟩, s)
    | .raise => some (⟨500, errorBody "Failed to search artifacts"⟩, s)
    | .beyond => none
  else
    match findByNameRegex s (name.getD "") with
    | .ok artifacts => some (⟨200, docsBody artifacts⟩, s)
    | .raise => some (⟨500, errorBody "Failed to search artifacts"⟩, s)
    | .beyond => none

/-- Handler `GET /artifacts/top-liked` (the spec's `topLiked`).  An array is
never falsy, so the 404 branch of the source is dead. -/
def topLiked (s : Store) : Handled :=
  match findTopLiked s with
  | .ok topArtifacts => some (⟨200, docsBody topArtifacts⟩, s)
  | .raise => some (⟨500, errorBody "Failed to fetch top artifacts"⟩, s)
  | .beyond => none

/-- The fields `POST /artifacts` requires. -/
def requiredFields : List String :=
  ["name", "image", "type", "historicalContext", "createdAt", "discoveredAt",
    "discoveredBy", "presentLocation", "addedBy"]

/-- The required fields that are falsy in the request body. -/
def missingFields (artifactData : JObj) : List String :=
  requiredFields.filter fun field => !truthy (getField field artifactData)

/-- The document `{ ...artifactData, likes: 0, likedBy: [], dateAdded: new Date() }`. -/
def newArtifact (artifactData : JObj) (now : Nat) : JObj :=
  setField "dateAdded" (date now)
    (setField "likedBy" (arr []) (setField "likes" (num 0) artifactData))

/-- Handler `POST /artifacts` (the spec's `create`). -/
def postArtifact (s : Store) (artifactData : JObj) (now : Nat) : Handled :=
  if (missingFields artifactData).length > 0 then
    some (⟨400, errorBody
      ("Missing required fields: " ++ ", ".intercalate (missingFields artifactData))⟩, s)
  else
    match insertOne s (newArtifact artifactData now) with
    | .ok (insertedId, s') =>
        some (⟨201, obj [("message", str "Artifact added successfully"),
          ("insertedId", insertedId)]⟩, s')
    | .raise => some (⟨500, errorBody "Failed to add artifact"⟩, s)
    | .beyond => none

/-- The request body after `delete updateData.likes`, `.likedBy`, `.addedBy`
and `.userId`. -/
def protect (updateData : JObj) : JObj :=
  delField "userId" (delField "addedBy" (delField "likedBy" (delField "likes" updateData)))

/-- Handler `PUT /artifacts/:id` (the spec's `update`); `userId` is read
from the body, which is also the patch.  The match on `parseObjectId id` is
the test `ObjectId.isValid(id)` together with the later `new ObjectId(id)`. -/
def putArtifact (s : Store) (id : String) (body : JObj) : Handled :=
  match parseObjectId id with
  | none => some (⟨400, errorBody "Invalid artifact ID"⟩, s)
  | some n =>
      match findOne s [("_id", oid n), ("addedBy.uid", bson (getField "userId" body))] with
      | .beyond => none
      | .raise => some (⟨500, errorBody "Failed to update artifact"⟩, s)
      | .ok none => some (⟨404, errorBody "Artifact not found or unauthorized"⟩, s)
      | .ok (some _) =>
          match findOneAndUpdate s [("_id", oid n)] (applySet (protect body)) with
          | .beyond => none
          | .raise => some (⟨500, errorBody "Failed to update artifact"⟩, s)
          | .ok (none, _) => some (⟨404, errorBody "Failed to update artifact"⟩, s)
          | .ok (some result, s') => some (⟨200, obj result⟩, s')

/-- Handler `DELETE /artifacts/:id` (the spec's `delete`). -/
def deleteArtifact (s : Store) (id : String) (body : JObj) : Handled :=
  match parseObjectId id with
  | none => some (⟨400, errorBody "Invalid artifact ID"⟩, s)
  | some n =>
      match findOne s [("_id", oid n), ("addedBy.uid", bson (getField "userId" body))] with
      | .beyond => none
      | .raise => some (⟨500, errorBody "Failed to delete artifact"⟩, s)
      | .ok none => some (⟨404, errorBody "Artifact not found or unauthorized"⟩, s)
      | .ok (some _) =>
          match deleteOne s [("_id", oid n)] with
          | .beyond => none
          | .raise => some (⟨500, errorBody "Failed to delete artifact"⟩, s)
          | .ok (deletedCount, s') =>
              if deletedCount = 0 then some (⟨404, errorBody "Failed to delete artifact"⟩, s)
              else some (⟨200, obj [("message", str "Artifact deleted successfully")]⟩, s')

/-- Handler `PUT /artifacts/:id/like` (the spec's `like`). -/
def likeArtifact (s : Store) (id : String) (body : JObj) : Handled :=
  match parseObjectId id with
  | none => some (⟨400, errorBody "Invalid artifact ID"⟩, s)
  | some n =>
      if !truthy (getField "userId" body) then
        some (⟨400, errorBody "User ID is required"⟩, s)
      else
        match findOne s [("_id", oid n), ("likedBy", bson (getField "userId" body))] with
        | .beyond => none
        | .raise => some (⟨500, errorBody "Failed to like artifact"⟩, s)
        | .ok (some _) => some (⟨400, errorBody "You have already liked this artifact"⟩, s)
        | .ok none =>
            match findOneAndUpdate s [("_id", oid n)]
                (applyLike (bson (getField "userId" body))) with
            | .beyond => none
            | .raise => some (⟨500, errorBody "Failed to like artifact"⟩, s)
            | .ok (none, _) => some (⟨404, errorBody "Artifact not found"⟩, s)
            | .ok (some result, s') => some (⟨200, obj result⟩, s')

/-! ## Vocabulary of the statements -/

/-- A scalar: neither an array nor a document. -/
def isScalar : JVal → Bool
  | .arr _ => false
  | .obj _ => false
  | _ => true

/-- The `_id` under which `insertOne` will store a document: its own when it
has one that is not `null`, otherwise the next `ObjectId` of the driver. -/
def idFor (s : Store) (doc : JObj) : JVal :=
  match getField "_id" doc with
  | none => oid s.next
  | some .null => oid s.next
  | some v => v

/-- Is the (possibly missing) field value an array? -/
def isArray : Option JVal → Bool
  | some (.arr _) => true
  | _ => false

/-- Is the document's `_id` an array (which the store never stores)? -/
def arrayId (d : JObj) : Bool :=
  match getField "_id" d with
  | some (.arr _) => true
  | _ => false

/-- The guarantees of the store on `_id`: never an array, never shared by two
documents. -/
def Store.WF (s : Store) : Prop :=
  (∀ d ∈ s.docs, arrayId d = false) ∧ s.ids.Nodup

instance (s : Store) : Decidable s.WF := by
  unfold Store.WF
  infer_instance

/-- The list with the document of the given `_id` replaced. -/
def replaceId (n : Nat) (d' : JObj) (l : List JObj) : List JObj :=
  l.map fun x => if getField "_id" x = some (oid n) then d' else x

/-- The counters of a stored artifact have the shape of the data model:
`likes` is a number and `likedBy` an array. -/
def countersOk (d : JObj) : Bool :=
  (likesKey d).isSome && isArray (getField "likedBy" d)

/-- The shape every collection built by the handlers has: the store's
guarantees on `_id`, and counters of the data model's shape. -/
def Store.Sound (s : Store) : Prop :=
  s.WF ∧ ∀ d ∈ s.docs, countersOk d = true

/-- Does the document satisfy `likes == likedBy.length`? -/
def likesMatch (d : JObj) : Bool :=
  match getField "likes" d, getField "likedBy" d with
  | some (.num n), some (.arr xs) => decide (n = xs.length)
  | _, _ => false

/-- The invariant `likes == length(likedBy)` on every stored artifact. -/
def LikesInvariant (s : Store) : Prop := ∀ d ∈ s.docs, likesMatch d = true

/-- The collections reachable from the empty one by `create`, `update`,
`delete` and `like` requests. -/
inductive Reachable : Store → Prop where
  | empty : Reachable ⟨[], 0⟩
  | create {s s' : Store} {r : Response} (artifactData : JObj) (now : Nat) :
      Reachable s → postArtifact s artifactData now = some (r, s') → Reachable s'
  | update {s s' : Store} {r : Response} (id : String) (body : JObj) :
      Reachable s → putArtifact s id body = some (r, s') → Reachable s'
  | delete {s s' : Store} {r : Response} (id : String) (body : JObj) :
      Reachable s → deleteArtifact s id body = some (r, s') → Reachable s'
  | like {s s' : Store} {r : Response} (id : String) (body : JObj) :
      Reachable s → likeArtifact s id body = some (r, s') → Reachable s'

/-- A plain top-level field name: not empty, without a dot, not starting
with `$`. -/
def topKey (k : String) : Bool :=
  decide (k ≠ "") && decide ('.' ∉ k.data) && !dollarName k

/-- A plain top-level field name other than `_id`. -/
def plainKey (k : String) : Bool := topKey k && decide (k ≠ "_id")

/-- The fields of a patch written one after the other as top-level fields. -/
def setFields (doc : JObj) (patch : JObj) : JObj :=
  patch.foldl (fun acc e => setField e.1 e.2 acc) doc

/-- A fragment that a regular expression reads literally and that the model
covers: ASCII characters, none of them special in a pattern, none U+0000. -/
def plainFragment (nameFragment : String) : Bool :=
  nameFragment.data.all fun c =>
    decide (c ∉ metaChars) && decide (c.toNat < 128) && decide (c ≠ Char.ofNat 0)

/-- Is the `name` of the document an ASCII string, or no string and no array
at all? -/
def asciiName (d : JObj) : Bool :=
  match getField "name" d with
  | some (.str name) => asciiText name.data
  | some (.arr _) => false
  | _ => true

/-- The search predicate in the spec's words, for ASCII text: the name is a
string that contains the fragment as a substring, letter case ignored. -/
def nameContains (nameFragment : String) (d : JObj) : Bool :=
  match getField "name" d with
  | some (.str name) =>
      decide (nameFragment.data.map Char.toLower <:+: name.data.map Char.toLower)
  | _ => false

/-! ## Example data -/

/-- A complete request body for `POST /artifacts`, owner `U1`. -/
def vase : JObj :=
  [("name", str "Vase"), ("image", str "http://img/vase.png"), ("type", str "Pottery"),
    ("historicalContext", str "Bronze Age"), ("createdAt", str "1500 BC"),
    ("discoveredAt", str "1901"), ("discoveredBy", str "Evans"),
    ("presentLocation", str "Heraklion"), ("addedBy", obj [("uid", str "U1")])]

/-- The document `POST /artifacts` stores for `vase` at time 5 in the empty
collection. -/
def vaseDoc : JObj := ("_id", oid 0) :: newArtifact vase 5

/-- The collection after that request. -/
def shelf : Store := ⟨[vaseDoc], 1⟩

/-- The route parameter naming `vaseDoc`. -/
def vaseId : String := "000000000000000000000000"

/-- A collection of seven artifacts with distinct numbers of likes. -/
def gallery : Store :=
  ⟨[[("_id", oid 0), ("likes", num 3)], [("_id", oid 1), ("likes", num 9)],
    [("_id", oid 2), ("likes", num 1)], [("_id", oid 3), ("likes", num 7)],
    [("_id", oid 4), ("likes", num 5)], [("_id", oid 5), ("likes", num 2)],
    [("_id", oid 6), ("likes", num 8)]], 7⟩

instance : IsTotal JObj (fun a b => likesOf b ≤ likesOf a) :=
  ⟨fun a b => le_total (likesOf b) (likesOf a)⟩

instance : IsTrans JObj (fun a b => likesOf b ≤ likesOf a) :=
  ⟨fun _ _ _ hab hbc => le_trans hbc hab⟩

/-! # Theorems -/

theorem getField_setField_same (k : String) (v : JVal) (o : JObj) :
    getField k (setField k v o) = some v := by
  induction o with
  | nil => simp [setField, getField]
  | cons e fs ih =>
    obtain ⟨k', v'⟩ := e
    by_cases h : k' = k <;> simp [setField, getField, h, ih]

theorem getField_setField_ne {k k' : String} (h : k' ≠ k) (v : JVal) (o : JObj) :
    getField k' (setField k v o) = getField k' o := by
  induction o with
  | nil => simp [setField, getField, Ne.symm h]
  | cons e fs ih =>
    obtain ⟨k'', v'⟩ := e
    by_cases h1 : k'' = k
    · subst h1
      simp [setField, getField, Ne.symm h]
    · by_cases h2 : k'' = k'
      · subst h2
        simp [setField, getField, h1]
      · simp [setField, getField, h1, h2, ih]

theorem getField_delField_same (k : String) (o : JObj) :
    getField k (delField k o) = none := by
  induction o with
  | nil => simp [delField, getField]
  | cons e fs ih =>
    obtain ⟨k', v'⟩ := e
    by_cases h : k' = k
    · simpa [delField, h] using ih
    · simpa [delField, List.filter_cons, h, getField] using ih

theorem getField_delField_ne {k k' : String} (h : k' ≠ k) (o : JObj) :
    getField k' (delField k o) = getField k' o := by
  induction o with
  | nil => simp [delField, getField]
  | cons e fs ih =>
    obtain ⟨k'', v'⟩ := e
    by_cases h1 : k'' = k
    · subst h1
      simpa [delField, getField, h.symm] using ih
    · by_cases h2 : k'' = k'
      · subst h2
        simp [delField, List.filter_cons, getField, h1]
      · simpa [delField, List.filter_cons, getField, h1, h2] using ih

theorem mem_delField {k : String} {e : String × JVal} {o : JObj} :
    e ∈ delField k o ↔ e ∈ o ∧ e.1 ≠ k := by
  simp [delField]


/-! ## Store outcomes -/

theorem Res.map_eq_ok {α β : Type} {f : α → β} {r : Res α} {b : β} :
    r.map f = .ok b ↔ ∃ a, r = .ok a ∧ f a = b := by
  cases r <;> simp [Res.map]

theorem Res.bind_eq_ok {α β : Type} {f : α → Res β} {r : Res α} {b : β} :
    r.bind f = .ok b ↔ ∃ a, r = .ok a ∧ f a = .ok b := by
  cases r <;> simp [Res.bind]

/-! ## Queries by `_id` -/

theorem resolvePath_single (k : String) (d : JObj) :
    resolvePath [k] (obj d) = .ok (getField k d) := by
  unfold resolvePath
  cases h : getField k d <;> simp [resolvePath]

theorem matchDoc_cons (d : JObj) (path : List String) (ps : List Pred) (rest : CQuery) :
    matchDoc d ((path, ps) :: rest) =
      (resolvePath path (obj d)).bind fun field =>
        if ps.all (Pred.holds field) then matchDoc d rest else .ok false := rfl

theorem matchDoc_id (n : Nat) (rest : CQuery) (d : JObj) (ha : arrayId d = false) :
    matchDoc d ((["_id"], [Pred.eq (oid n)]) :: rest) =
      if getField "_id" d = some (oid n) then matchDoc d rest else .ok false := by
  rw [matchDoc_cons, resolvePath_single]
  unfold arrayId at ha
  cases h : getField "_id" d with
  | none => simp [Res.bind, Pred.holds, eqMatch]
  | some v =>
    rw [h] at ha
    cases v <;> simp_all [Res.bind, Pred.holds, eqMatch]

theorem firstMatch_id_none (n : Nat) (rest : CQuery) (l : List JObj)
    (ha : ∀ x ∈ l, arrayId x = false) (hn : ∀ x ∈ l, getField "_id" x ≠ some (oid n)) :
    firstMatch ((["_id"], [Pred.eq (oid n)]) :: rest) l = .ok none := by
  induction l with
  | nil => rfl
  | cons x xs ih =>
    unfold firstMatch
    rw [matchDoc_id n rest x (ha x (List.mem_cons_self _ _))]
    simp only [hn x (List.mem_cons_self _ _), if_false, Res.bind]
    simpa using ih (fun y hy => ha y (List.mem_cons_of_mem _ hy))
      (fun y hy => hn y (List.mem_cons_of_mem _ hy))

theorem firstMatch_id (n : Nat) (rest : CQuery) (l : List JObj) (d : JObj)
    (ha : ∀ x ∈ l, arrayId x = false) (hnd : (l.map (getField "_id")).Nodup)
    (hd : d ∈ l) (hid : getField "_id" d = some (oid n)) :
    firstMatch ((["_id"], [Pred.eq (oid n)]) :: rest) l =
      (matchDoc d rest).bind fun b => .ok (if b then some d else none) := by
  induction l with
  | nil => simp at hd
  | cons x xs ih =>
    have hax := ha x (List.mem_cons_self _ _)
    have haxs : ∀ y ∈ xs, arrayId y = false := fun y hy => ha y (List.mem_cons_of_mem _ hy)
    rw [List.map_cons, List.nodup_cons] at hnd
    unfold firstMatch
    rw [matchDoc_id n rest x hax]
    rcases List.mem_cons.1 hd with rfl | hmem
    · have hrest : firstMatch ((["_id"], [Pred.eq (oid n)]) :: rest) xs = .ok none := by
        apply firstMatch_id_none n rest xs haxs
        intro y hy hyid
        exact hnd.1 (List.mem_map.2 ⟨y, hy, by rw [hyid, hid]⟩)
      rw [if_pos hid]
      cases hm : matchDoc d rest with
      | ok b => cases b <;> simp [Res.bind, hrest]
      | raise => simp [Res.bind]
      | beyond => simp [Res.bind]
    · have hx : getField "_id" x ≠ some (oid n) := by
        intro hx
        exact hnd.1 (List.mem_map.2 ⟨d, hmem, by rw [hx, hid]⟩)
      rw [if_neg hx]
      simpa [Res.bind] using ih haxs hnd.2 hmem

theorem updateFirst_id_none (n : Nat) (upd : JObj → Res JObj) (l : List JObj)
    (ha : ∀ x ∈ l, arrayId x = false) (hn : ∀ x ∈ l, getField "_id" x ≠ some (oid n)) :
    updateFirst [(["_id"], [Pred.eq (oid n)])] upd l = .ok (none, l) := by
  induction l with
  | nil => rfl
  | cons x xs ih =>
    unfold updateFirst
    rw [matchDoc_id n [] x (ha x (List.mem_cons_self _ _))]
    simp only [hn x (List.mem_cons_self _ _), if_false, Res.bind]
    rw [ih (fun y hy => ha y (List.mem_cons_of_mem _ hy))
      (fun y hy => hn y (List.mem_cons_of_mem _ hy))]
    simp [Res.map]

theorem replaceId_none (n : Nat) (d' : JObj) (l : List JObj)
    (hn : ∀ x ∈ l, getField "_id" x ≠ some (oid n)) : replaceId n d' l = l := by
  unfold replaceId
  conv_rhs => rw [← List.map_id l]
  apply List.map_congr_left
  intro x hx
  simp [hn x hx]

theorem updateFirst_id (n : Nat) (upd : JObj → Res JObj) (l : List JObj) (d : JObj)
    (ha : ∀ x ∈ l, arrayId x = false) (hnd : (l.map (getField "_id")).Nodup)
    (hd : d ∈ l) (hid : getField "_id" d = some (oid n)) :
    updateFirst [(["_id"], [Pred.eq (oid n)])] upd l =
      (upd d).map fun d' => (some d', replaceId n d' l) := by
  induction l with
  | nil => simp at hd
  | cons x xs ih =>
    have hax := ha x (List.mem_cons_self _ _)
    have haxs : ∀ y ∈ xs, arrayId y = false := fun y hy => ha y (List.mem_cons_of_mem _ hy)
    rw [List.map_cons, List.nodup_cons] at hnd
    unfold updateFirst
    rw [matchDoc_id n [] x hax]
    rcases List.mem_cons.1 hd with rfl | hmem
    · have hn : ∀ y ∈ xs, getField "_id" y ≠ some (oid n) := by
        intro y hy hyid
        exact hnd.1 (List.mem_map.2 ⟨y, hy, by rw [hyid, hid]⟩)
      rw [if_pos hid]
      simp only [matchDoc, Res.bind, if_true]
      cases hu : upd d with
      | ok d' =>
        simp only [Res.map]
        congr 2
        simp only [replaceId, List.map_cons, hid, if_true, Prod.mk.injEq, true_and]
        congr 1
        exact (replaceId_none n d' xs hn).symm
      | raise => rfl
      | beyond => rfl
    · have hx : getField "_id" x ≠ some (oid n) := by
        intro hx
        exact hnd.1 (List.mem_map.2 ⟨d, hmem, by rw [hx, hid]⟩)
      rw [if_neg hx]
      simp only [Res.bind, Bool.false_eq_true, if_false]
      rw [ih haxs hnd.2 hmem]
      cases hu : upd d with
      | ok d' => simp [Res.map, replaceId, hx]
      | raise => rfl
      | beyond => rfl

theorem removeFirst_id (n : Nat) (l : List JObj) (d : JObj)
    (ha : ∀ x ∈ l, arrayId x = false) (hnd : (l.map (getField "_id")).Nodup)
    (hd : d ∈ l) (hid : getField "_id" d = some (oid n)) :
    removeFirst [(["_id"], [Pred.eq (oid n)])] l =
      .ok (1, l.filter fun x => decide (getField "_id" x ≠ some (oid n))) := by
  induction l with
  | nil => simp at hd
  | cons x xs ih =>
    have hax := ha x (List.mem_cons_self _ _)
    have haxs : ∀ y ∈ xs, arrayId y = false := fun y hy => ha y (List.mem_cons_of_mem _ hy)
    rw [List.map_cons, List.nodup_cons] at hnd
    unfold removeFirst
    rw [matchDoc_id n [] x hax]
    rcases List.mem_cons.1 hd with rfl | hmem
    · have hn : ∀ y ∈ xs, getField "_id" y ≠ some (oid n) := by
        intro y hy hyid
        exact hnd.1 (List.mem_map.2 ⟨y, hy, by rw [hyid, hid]⟩)
      rw [if_pos hid]
      simp only [matchDoc, Res.bind, if_true]
      congr 2
      rw [List.filter_cons]
      simp only [hid, ne_eq, not_true_eq_false, decide_False, Bool.false_eq_true, if_false]
      symm
      rw [List.filter_eq_self]
      intro y hy
      simpa using hn y hy
    · have hx : getField "_id" x ≠ some (oid n) := by
        intro hx
        exact hnd.1 (List.mem_map.2 ⟨d, hmem, by rw [hx, hid]⟩)
      rw [if_neg hx]
      simp only [Res.bind, Bool.false_eq_true, if_false]
      rw [ih haxs hnd.2 hmem]
      simp [Res.map, List.filter_cons, hx]


/-! ## Creation -/

theorem missingFields_pos_iff (a : JObj) :
    (missingFields a).length > 0 ↔ ∃ f ∈ requiredFields, truthy (getField f a) = false := by
  rw [gt_iff_lt, List.length_pos_iff_exists_mem]
  simp [missingFields, List.mem_filter]

theorem getField_newArtifact_likes (a : JObj) (now : Nat) :
    getField "likes" (newArtifact a now) = some (num 0) := by
  unfold newArtifact
  rw [getField_setField_ne (by decide), getField_setField_ne (by decide),
    getField_setField_same]

theorem getField_newArtifact_likedBy (a : JObj) (now : Nat) :
    getField "likedBy" (newArtifact a now) = some (arr []) := by
  unfold newArtifact
  rw [getField_setField_ne (by decide), getField_setField_same]

theorem getField_newArtifact_id (a : JObj) (now : Nat) :
    getField "_id" (newArtifact a now) = getField "_id" a := by
  unfold newArtifact
  rw [getField_setField_ne (by decide), getField_setField_ne (by decide),
    getField_setField_ne (by decide)]


theorem nulFree_obj (fs : JObj) : nulFree (obj fs) = nulFreeFields fs := by
  rw [nulFree]

theorem nulFreeFields_cons (k : String) (v : JVal) (fs : JObj) :
    nulFreeFields ((k, v) :: fs) = (nulFreeName k && nulFree v && nulFreeFields fs) := by
  rw [nulFreeFields]

theorem nulFreeFields_setField (k : String) (v : JVal) (o : JObj)
    (hk : nulFreeName k = true) (hv : nulFree v = true) (ho : nulFreeFields o = true) :
    nulFreeFields (setField k v o) = true := by
  induction o with
  | nil => simp [setField, nulFreeFields_cons, hk, hv, nulFreeFields]
  | cons e fs ih =>
    obtain ⟨k', v'⟩ := e
    rw [nulFreeFields_cons] at ho
    simp only [Bool.and_eq_true] at ho
    by_cases h : k' = k
    · simp [setField, h, nulFreeFields_cons, hk, hv, ho.2]
    · simp [setField, h, nulFreeFields_cons, ho.1.1, ho.1.2, ih ho.2]

theorem nulFreeFields_filter (p : String × JVal → Bool) (o : JObj)
    (ho : nulFreeFields o = true) : nulFreeFields (o.filter p) = true := by
  induction o with
  | nil => simpa using ho
  | cons e fs ih =>
    obtain ⟨k', v'⟩ := e
    rw [nulFreeFields_cons] at ho
    simp only [Bool.and_eq_true] at ho
    rw [List.filter_cons]
    split
    · rw [nulFreeFields_cons]
      simp [ho.1.1, ho.1.2, ih ho.2]
    · exact ih ho.2

theorem nulFreeFields_delField (k : String) (o : JObj) (ho : nulFreeFields o = true) :
    nulFreeFields (delField k o) = true :=
  nulFreeFields_filter _ o ho

theorem nulFree_newArtifact (a : JObj) (now : Nat) (h : nulFree (obj a) = true) :
    nulFree (obj (newArtifact a now)) = true := by
  rw [nulFree_obj] at h ⊢
  unfold newArtifact
  exact nulFreeFields_setField _ _ _ (by decide) rfl
    (nulFreeFields_setField _ _ _ (by decide) rfl
      (nulFreeFields_setField _ _ _ (by decide) rfl h))

theorem insertOne_ok (s : Store) (doc : JObj) (hser : nulFree (obj doc) = true)
    (hs : isScalar (idFor s doc) = true) (hfree : some (idFor s doc) ∉ s.ids) :
    ∃ stored n', insertOne s doc = .ok (idFor s doc, ⟨s.docs ++ [stored], n'⟩) ∧
      getField "_id" stored = some (idFor s doc) ∧
      ∀ k, k ≠ "_id" → getField k stored = getField k doc := by
  unfold insertOne
  simp only [hser, Bool.not_true, Bool.false_eq_true, if_false]
  cases h : getField "_id" doc with
  | none =>
    simp only [idFor, h] at hs hfree
    refine ⟨("_id", oid s.next) :: doc, s.next + 1, ?_, ?_, ?_⟩
    · simp [idFor, h, hfree]
    · simp [getField, idFor, h]
    · intro k hk
      simp [getField, Ne.symm hk]
  | some v =>
    by_cases hnull : v = null
    · subst hnull
      simp only [idFor, h] at hs hfree
      refine ⟨("_id", oid s.next) :: delField "_id" doc, s.next + 1, ?_, ?_, ?_⟩
      · simp [idFor, h, hfree]
      · simp [getField, idFor, h]
      · intro k hk
        simp [getField, Ne.symm hk, getField_delField_ne hk]
    · have hidv : idFor s doc = v := by
        cases v <;> simp_all [idFor]
      rw [hidv] at hs hfree ⊢
      refine ⟨("_id", v) :: delField "_id" doc, s.next, ?_, ?_, ?_⟩
      · cases v <;> simp_all [isScalar]
      · simp [getField]
      · intro k hk
        simp [getField, Ne.symm hk, getField_delField_ne hk]

theorem insertOne_dup (s : Store) (doc : JObj) (hser : nulFree (obj doc) = true)
    (hs : isScalar (idFor s doc) = true) (hused : some (idFor s doc) ∈ s.ids) :
    insertOne s doc = .raise := by
  unfold insertOne
  simp only [hser, Bool.not_true, Bool.false_eq_true, if_false]
  cases h : getField "_id" doc with
  | none =>
    simp only [idFor, h] at hused
    simp [hused]
  | some v =>
    by_cases hnull : v = null
    · subst hnull
      simp only [idFor, h] at hused
      simp [hused]
    · have hidv : idFor s doc = v := by
        cases v <;> simp_all [idFor]
      rw [hidv] at hs hused
      cases v <;> simp_all [isScalar]

/-- Claim C6: `create` answers 400 if and only if one of the nine required
fields (`name`, `image`, `type`, `historicalContext`, `createdAt`,
`discoveredAt`, `discoveredBy`, `presentLocation`, `addedBy`) is falsy in the
request body; the message then is `Missing required fields: ` followed by all
the falsy required fields, in the declared order, joined by `, `, and the
collection is left as it was. -/
theorem create_validation (s : Store) (artifactData : JObj) (now : Nat) :
    ((∃ r s', postArtifact s artifactData now = some (r, s') ∧ r.status = 400) ↔
        ∃ f ∈ requiredFields, truthy (getField f artifactData) = false) ∧
    ((∃ f ∈ requiredFields, truthy (getField f artifactData) = false) →
        postArtifact s artifactData now =
          some (⟨400, errorBody ("Missing required fields: " ++
            ", ".intercalate (missingFields artifactData))⟩, s)) ∧
    (∀ f, f ∈ missingFields artifactData ↔
        f ∈ requiredFields ∧ truthy (getField f artifactData) = false) ∧
    (missingFields artifactData).Sublist requiredFields ∧
    requiredFields = ["name", "image", "type", "historicalContext", "createdAt",
      "discoveredAt", "discoveredBy", "presentLocation", "addedBy"] := by
  have hpost : (∃ f ∈ requiredFields, truthy (getField f artifactData) = false) →
      postArtifact s artifactData now =
        some (⟨400, errorBody ("Missing required fields: " ++
          ", ".intercalate (missingFields artifactData))⟩, s) := by
    intro h
    have := (missingFields_pos_iff artifactData).2 h
    simp [postArtifact, this]
  refine ⟨⟨?_, fun h => ⟨_, _, hpost h, rfl⟩⟩, hpost, ?_, ?_, rfl⟩
  · rintro ⟨r, s', h, h400⟩
    by_contra hno
    have hlen : ¬ (missingFields artifactData).length > 0 :=
      fun hp => hno ((missingFields_pos_iff artifactData).1 hp)
    simp only [postArtifact, hlen, if_false] at h
    cases hins : insertOne s (newArtifact artifactData now) with
    | ok p =>
      obtain ⟨i, s1⟩ := p
      rw [hins] at h
      simp at h
      rw [← h.1] at h400
      simp at h400
    | raise =>
      rw [hins] at h
      simp at h
      rw [← h.1] at h400
      simp at h400
    | beyond =>
      rw [hins] at h
      simp at h
  · intro f
    simp [missingFields, List.mem_filter]
  · exact List.filter_sublist _


/-- Claim C6 on the spec's example: a body without `historicalContext` (and
with an empty `image`) is answered 400 with both fields named, in the
declared order, and nothing is stored. -/
theorem create_validation_witness :
    postArtifact shelf (("image", str "") :: delField "image"
        (delField "historicalContext" vase)) 9 =
      some (⟨400, errorBody "Missing required fields: image, historicalContext"⟩, shelf) :=
  ((create_validation shelf (("image", str "") :: delField "image"
      (delField "historicalContext" vase)) 9).2.1
    ⟨"image", by decide, by decide⟩).trans (by decide)

/-- Claim C5 (amended): let the request body pass the required-field
validation and have no U+0000 in a field name, and let the `_id` the new
document goes under (the one the body supplies when it is not `null`,
otherwise the driver's next `ObjectId`) be a scalar.  When that `_id` is not
used in the collection, `create` answers 201 with it as `insertedId`, appends
exactly one document, stored under it, and that document has `likes == 0`
and `likedBy == []` whatever the body supplied for them.  When that `_id` is
already used, `create` answers 500 and the collection is left as it was. -/
theorem create_resets_likes (s : Store) (artifactData : JObj) (now : Nat)
    (hvalid : missingFields artifactData = [])
    (hser : nulFree (obj artifactData) = true)
    (hscalar : isScalar (idFor s artifactData) = true) :
    (some (idFor s artifactData) ∉ s.ids →
      ∃ stored next',
        postArtifact s artifactData now =
          some (⟨201, obj [("message", str "Artifact added successfully"),
            ("insertedId", idFor s artifactData)]⟩, ⟨s.docs ++ [stored], next'⟩) ∧
        getField "_id" stored = some (idFor s artifactData) ∧
        getField "likes" stored = some (num 0) ∧
        getField "likedBy" stored = some (arr [])) ∧
    (some (idFor s artifactData) ∈ s.ids →
      postArtifact s artifactData now =
        some (⟨500, obj [("error", str "Failed to add artifact")]⟩, s)) := by
  have hid : idFor s (newArtifact artifactData now) = idFor s artifactData := by
    simp [idFor, getField_newArtifact_id]
  have hser' := nulFree_newArtifact artifactData now hser
  constructor
  · intro hfree
    obtain ⟨stored, n', hins, h1, h2⟩ :=
      insertOne_ok s (newArtifact artifactData now) hser' (by rw [hid]; exact hscalar)
        (by rw [hid]; exact hfree)
    refine ⟨stored, n', ?_, ?_, ?_, ?_⟩
    · simp [postArtifact, hvalid, hins, hid]
    · rw [h1, hid]
    · rw [h2 _ (by decide), getField_newArtifact_likes]
    · rw [h2 _ (by decide), getField_newArtifact_likedBy]
  · intro hused
    have hins := insertOne_dup s (newArtifact artifactData now) hser'
      (by rw [hid]; exact hscalar) (by rw [hid]; exact hused)
    simp [postArtifact, hvalid, hins, errorBody]

/-- The amended claim C5 on a body that supplies `likes: 99`, a non-empty
`likedBy` and `_id: null`: the driver's `ObjectId` is the `insertedId`. -/
theorem create_resets_likes_witness :
    ∃ stored next',
      postArtifact ⟨[], 0⟩
          (("_id", null) :: ("likes", num 99) :: ("likedBy", arr [str "U9"]) :: vase) 5 =
        some (⟨201, obj [("message", str "Artifact added successfully"),
          ("insertedId", oid 0)]⟩, ⟨[] ++ [stored], next'⟩) ∧
      getField "_id" stored = some (oid 0) ∧
      getField "likes" stored = some (num 0) ∧
      getField "likedBy" stored = some (arr []) :=
  (create_resets_likes ⟨[], 0⟩
    (("_id", null) :: ("likes", num 99) :: ("likedBy", arr [str "U9"]) :: vase) 5
    (by decide) (by decide) (by decide)).1 (by decide)

/-- Claim C5 as stated fails: a body that passes validation and supplies
`_id: "a"` is stored by a first `create`; a second `create` with the same
body passes validation too, but the store rejects the duplicate `_id`, the
handler answers 500 and no document is added. -/
theorem create_duplicate_id_adds_nothing :
    missingFields (("_id", str "a") :: vase) = [] ∧
    ∃ s1, postArtifact ⟨[], 0⟩ (("_id", str "a") :: vase) 5 =
        some (⟨201, obj [("message", str "Artifact added successfully"),
          ("insertedId", str "a")]⟩, s1) ∧
      postArtifact s1 (("_id", str "a") :: vase) 6 =
        some (⟨500, obj [("error", str "Failed to add artifact")]⟩, s1) :=
  ⟨by decide, _, rfl, by decide⟩

/-! ## Likes -/

theorem replaceId_ids (n : Nat) (d' : JObj) (l : List JObj)
    (hid' : getField "_id" d' = some (oid n)) :
    (replaceId n d' l).map (getField "_id") = l.map (getField "_id") := by
  unfold replaceId
  rw [List.map_map]
  apply List.map_congr_left
  intro x _
  by_cases h : getField "_id" x = some (oid n) <;> simp [h, hid']

theorem arrayId_of_oid {d : JObj} {n : Nat} (h : getField "_id" d = some (oid n)) :
    arrayId d = false := by
  simp [arrayId, h]

theorem replaceId_wf (s : Store) (n : Nat) (d' : JObj) (hwf : s.WF)
    (hid' : getField "_id" d' = some (oid n)) :
    Store.WF ⟨replaceId n d' s.docs, s.next⟩ := by
  refine ⟨?_, ?_⟩
  · intro x hx
    simp only [replaceId, List.mem_map] at hx
    obtain ⟨y, hy, rfl⟩ := hx
    by_cases h : getField "_id" y = some (oid n)
    · simp [h, arrayId_of_oid hid']
    · simpa [h] using hwf.1 y hy
  · show ((replaceId n d' s.docs).map (getField "_id")).Nodup
    rw [replaceId_ids n d' s.docs hid']
    exact hwf.2

theorem mem_replaceId (n : Nat) (d d' : JObj) (l : List JObj) (hd : d ∈ l)
    (hid : getField "_id" d = some (oid n)) : d' ∈ replaceId n d' l := by
  unfold replaceId
  exact List.mem_map.2 ⟨d, hd, by simp [hid]⟩

theorem compileQuery_cons (p : String) (q : JVal) (rest : Query)
    (hq : nulFree q = true) :
    compileQuery ((p, q) :: rest) =
      (compileValue q).bind fun ps =>
        (compileQuery rest).map fun cs => (splitPath p, ps) :: cs := by
  rw [compileQuery, if_pos hq]

theorem findOne_id_cond (s : Store) (n : Nat) (path : String) (v : JVal) (d : JObj)
    (ps : List Pred) (hser : nulFree v = true) (hv : compileValue v = .ok ps)
    (hwf : s.WF) (hd : d ∈ s.docs) (hid : getField "_id" d = some (oid n)) :
    findOne s [("_id", oid n), (path, v)] =
      (matchDoc d [(splitPath path, ps)]).bind fun b => .ok (if b then some d else none) := by
  have hq : compileQuery [("_id", oid n), (path, v)] =
      .ok [(["_id"], [Pred.eq (oid n)]), (splitPath path, ps)] := by
    have h1 : compileValue (oid n) = .ok [Pred.eq (oid n)] := rfl
    have h2 : splitPath "_id" = ["_id"] := by decide
    rw [compileQuery_cons "_id" (oid n) _ rfl, compileQuery_cons path v _ hser, h1, hv, h2]
    rfl
  unfold findOne
  rw [hq]
  exact firstMatch_id n _ s.docs d hwf.1 hwf.2 hd hid

theorem findOneAndUpdate_id (s : Store) (n : Nat) (upd : JObj → Res JObj) (d : JObj)
    (hwf : s.WF) (hd : d ∈ s.docs) (hid : getField "_id" d = some (oid n)) :
    findOneAndUpdate s [("_id", oid n)] upd =
      (upd d).map fun d' => (some d', ⟨replaceId n d' s.docs, s.next⟩) := by
  have hq : compileQuery [("_id", oid n)] = .ok [(["_id"], [Pred.eq (oid n)])] := rfl
  unfold findOneAndUpdate
  rw [hq]
  simp only [Res.bind]
  rw [updateFirst_id n upd s.docs d hwf.1 hwf.2 hd hid]
  cases upd d <;> rfl

theorem isScalar_facts {v : JVal} (h : isScalar v = true) :
    nulFree v = true ∧ compileValue v = .ok [Pred.eq v] ∧ modifierDoc v = false ∧
      ∀ xs, arr xs ≠ v := by
  cases v with
  | arr xs => simp [isScalar] at h
  | obj fs => simp [isScalar] at h
  | _ => exact ⟨rfl, rfl, rfl, fun _ => by simp⟩

theorem applyLike_scalar (v : JVal) (d : JObj) (k : Int) (liked : List JVal)
    (hv : isScalar v = true)
    (hlikes : getField "likes" d = some (num k))
    (hliked : getField "likedBy" d = some (arr liked)) :
    applyLike v d =
      .ok (setField "likedBy" (arr (liked ++ [v])) (setField "likes" (num (k + 1)) d)) := by
  obtain ⟨hser, _, hmod, _⟩ := isScalar_facts hv
  simp [applyLike, hser, hmod, incLikes, hlikes, Res.bind, pushLikedBy,
    getField_setField_ne (show "likedBy" ≠ "likes" by decide), hliked]

/-- Claim C2 (amended): in a collection with unique `_id`s, for an artifact
stored under the `ObjectId` that `id` denotes, with numeric `likes` and array
`likedBy`, and a `userId` that is a truthy scalar (a non-empty string, a
non-zero number, `true`) not in `likedBy`, the first `like` answers 200 with
the updated artifact; a second `like` on the resulting collection answers 400
`You have already liked this artifact` and leaves that collection unchanged;
the stored artifact then has `likes` one more than before and `likedBy`
extended by `userId`, in which `userId` occurs exactly once. -/
theorem like_twice (s : Store) (id : String) (n : Nat) (body : JObj) (userId : JVal)
    (d : JObj) (k : Int) (liked : List JVal)
    (hwf : s.WF) (hparse : parseObjectId id = some n)
    (hd : d ∈ s.docs) (hid : getField "_id" d = some (oid n))
    (hlikes : getField "likes" d = some (num k))
    (hliked : getField "likedBy" d = some (arr liked))
    (hbody : getField "userId" body = some userId)
    (hscalar : isScalar userId = true) (htruthy : truthy (some userId) = true)
    (hnew : userId ∉ liked) :
    ∃ d1 s1,
      likeArtifact s id body = some (⟨200, obj d1⟩, s1) ∧
      likeArtifact s1 id body =
        some (⟨400, obj [("error", str "You have already liked this artifact")]⟩, s1) ∧
      d1 ∈ s1.docs ∧ getField "_id" d1 = some (oid n) ∧ s1.WF ∧
      (∀ x ∈ s.docs, getField "_id" x ≠ some (oid n) → x ∈ s1.docs) ∧
      getField "likes" d1 = some (num (k + 1)) ∧
      getField "likedBy" d1 = some (arr (liked ++ [userId])) ∧
      (liked ++ [userId]).count userId = 1 := by
  obtain ⟨hser, hcomp, _, hnarr⟩ := isScalar_facts hscalar
  let d1 := setField "likedBy" (arr (liked ++ [userId])) (setField "likes" (num (k + 1)) d)
  have hid1 : getField "_id" d1 = some (oid n) := by
    simp only [d1]
    rw [getField_setField_ne (by decide), getField_setField_ne (by decide), hid]
  have hliked1 : getField "likedBy" d1 = some (arr (liked ++ [userId])) :=
    getField_setField_same _ _ _
  have hlikes1 : getField "likes" d1 = some (num (k + 1)) := by
    simp only [d1]
    rw [getField_setField_ne (by decide), getField_setField_same]
  have hwf1 : Store.WF ⟨replaceId n d1 s.docs, s.next⟩ := replaceId_wf s n d1 hwf hid1
  have hmem1 : d1 ∈ replaceId n d1 s.docs := mem_replaceId n d d1 s.docs hd hid
  have hsplit : splitPath "likedBy" = ["likedBy"] := by decide
  have hothers : ∀ x ∈ s.docs, getField "_id" x ≠ some (oid n) → x ∈ replaceId n d1 s.docs := by
    intro x hx hne
    exact List.mem_map.2 ⟨x, hx, by simp [hne]⟩
  refine ⟨d1, ⟨replaceId n d1 s.docs, s.next⟩, ?_, ?_, hmem1, hid1, hwf1, hothers, hlikes1,
    hliked1, ?_⟩
  · unfold likeArtifact
    simp only [hparse, hbody, htruthy, bson]
    rw [findOne_id_cond s n "likedBy" userId d [Pred.eq userId] hser hcomp hwf hd hid,
      findOneAndUpdate_id s n _ d hwf hd hid,
      applyLike_scalar userId d k liked hscalar hlikes hliked]
    simp [hsplit, matchDoc_cons, resolvePath_single, hliked, Res.bind, Pred.holds, eqMatch,
      hnew, hnarr, matchDoc, Res.map, d1]
  · unfold likeArtifact
    simp only [hparse, hbody, htruthy, bson]
    rw [findOne_id_cond ⟨replaceId n d1 s.docs, s.next⟩ n "likedBy" userId d1
      [Pred.eq userId] hser hcomp hwf1 hmem1 hid1]
    simp [hsplit, matchDoc_cons, resolvePath_single, hliked1, Res.bind, Pred.holds, eqMatch,
      matchDoc, errorBody]
  · rw [List.count_append, List.count_eq_zero_of_not_mem hnew]
    simp

/-- The amended claim C2 on the collection holding one fresh artifact, liked
by `U2`. -/
theorem like_twice_witness :
    ∃ d1 s1,
      likeArtifact shelf vaseId [("userId", str "U2")] = some (⟨200, obj d1⟩, s1) ∧
      likeArtifact s1 vaseId [("userId", str "U2")] =
        some (⟨400, obj [("error", str "You have already liked this artifact")]⟩, s1) ∧
      d1 ∈ s1.docs ∧ getField "_id" d1 = some (oid 0) ∧ s1.WF ∧
      (∀ x ∈ shelf.docs, getField "_id" x ≠ some (oid 0) → x ∈ s1.docs) ∧
      getField "likes" d1 = some (num (0 + 1)) ∧
      getField "likedBy" d1 = some (arr ([] ++ [str "U2"])) ∧
      ([] ++ [str "U2"]).count (str "U2") = 1 :=
  like_twice shelf vaseId 0 [("userId", str "U2")] (str "U2") vaseDoc 0 []
    (by decide) (by decide) (by decide) (by decide) (by decide) (by decide) (by decide)
    (by decide) (by decide) (by decide)

/-- Claim C2 as stated fails.  On the fresh artifact, whose `likedBy` is
empty, the first `like` with the truthy `userId` `{"$ne": "x"}` answers 400
`You have already liked this artifact`: the store reads the document as a
query operator.  And an artifact that `create` stored under the `_id` its
body supplied, the string of 24 zeros, exists under that id, yet `like`
looks for the `ObjectId` the id denotes and answers 404. -/
theorem like_refuses_first_like :
    getField "likedBy" vaseDoc = some (arr []) ∧
    truthy (some (obj [("$ne", str "x")])) = true ∧
    likeArtifact shelf vaseId [("userId", obj [("$ne", str "x")])] =
      some (⟨400, obj [("error", str "You have already liked this artifact")]⟩, shelf) ∧
    ∃ s1,
      postArtifact ⟨[], 0⟩ (("_id", str vaseId) :: vase) 5 =
        some (⟨201, obj [("message", str "Artifact added successfully"),
          ("insertedId", str vaseId)]⟩, s1) ∧
      likeArtifact s1 vaseId [("userId", str "U2")] =
        some (⟨404, obj [("error", str "Artifact not found")]⟩, s1) :=
  ⟨by decide, by decide, by decide, _, rfl, by decide⟩

theorem shelf_reachable : Reachable shelf :=
  Reachable.create vase 5 Reachable.empty (r := ⟨201, obj [("message", str "Artifact added successfully"),
          ("insertedId", oid 0)]⟩) (by decide)

/-- Claim C1 fails on the code: creating an artifact in the empty collection
and then updating it as its owner with the patch `{"likedBy.0": "U9"}` reaches
a collection whose artifact has `likes == 0` and `likedBy == ["U9"]`: the
handler deletes the key `likedBy` from the patch, not the dotted path, which
`$set` writes into the array. -/
theorem likes_invariant_broken_by_update :
    ∃ s, Reachable s ∧
      (∃ d ∈ s.docs, getField "likes" d = some (num 0) ∧
        getField "likedBy" d = some (arr [str "U9"])) ∧
      ¬ LikesInvariant s := by
  refine ⟨⟨[setField "likedBy" (arr [str "U9"]) vaseDoc], 1⟩, ?_, ?_, ?_⟩
  · exact Reachable.update vaseId [("userId", str "U1"), ("likedBy.0", str "U9")]
      shelf_reachable (r := ⟨200, obj (setField "likedBy" (arr [str "U9"]) vaseDoc)⟩) (by decide)
  · exact ⟨_, List.mem_singleton_self _, by decide, by decide⟩
  · unfold LikesInvariant
    decide

/-- Claim C3 fails on the code: the owner's update with the patch
`{"addedBy.uid": "U2"}` answers 200 and the stored `addedBy` changes from
`{uid: "U1"}` to `{uid: "U2"}`: the handler deletes the key `addedBy` from the
patch, not the dotted path, which `$set` writes into the embedded document. -/
theorem update_rewrites_addedBy :
    getField "addedBy" vaseDoc = some (obj [("uid", str "U1")]) ∧
    ∃ d', putArtifact shelf vaseId [("userId", str "U1"), ("addedBy.uid", str "U2")] =
        some (⟨200, obj d'⟩, ⟨[d'], 1⟩) ∧
      getField "addedBy" d' = some (obj [("uid", str "U2")]) :=
  ⟨by decide, setField "addedBy" (obj [("uid", str "U2")]) vaseDoc, by decide, by decide⟩

/-- Claim C4 fails on the code: for the artifact owned by `U1`, a request
whose `userId` is the document `{"$ne": ""}` passes the ownership lookup (the
store reads it as a query operator): `update` answers 200 and rewrites the
artifact, `delete` answers 200 and removes it. -/
theorem ownership_check_bypassed :
    getField "addedBy" vaseDoc = some (obj [("uid", str "U1")]) ∧
    putArtifact shelf vaseId [("userId", obj [("$ne", str "")]), ("name", str "Forged")] =
      some (⟨200, obj (setField "name" (str "Forged") vaseDoc)⟩,
        ⟨[setField "name" (str "Forged") vaseDoc], 1⟩) ∧
    deleteArtifact shelf vaseId [("userId", obj [("$ne", str "")])] =
      some (⟨200, obj [("message", str "Artifact deleted successfully")]⟩, ⟨[], 1⟩) :=
  ⟨by decide, by decide, by decide⟩


/-! ## Frame properties of `$set` -/

theorem setPathFields_nil (c : String) (cs : List String) (v : JVal) :
    setPathFields [] c cs v = (freshPath cs).map (fun _ => [(c, nestNew cs v)]) := by
  rw [setPathFields]

theorem setPathFields_cons (k : String) (w : JVal) (fs : JObj) (c : String)
    (cs : List String) (v : JVal) :
    setPathFields ((k, w) :: fs) c cs v =
      if k = c then (setPath w cs v).map (fun w' => (k, w') :: fs)
      else (setPathFields fs c cs v).map (fun fs' => (k, w) :: fs') := by
  rw [setPathFields]

theorem setPathFields_frame {k c : String} (hk : c ≠ k) (cs : List String) (v : JVal) :
    ∀ (doc doc' : JObj), setPathFields doc c cs v = .ok doc' →
      getField k doc' = getField k doc := by
  intro doc
  induction doc with
  | nil =>
    intro doc' h
    rw [setPathFields_nil, Res.map_eq_ok] at h
    obtain ⟨_, _, rfl⟩ := h
    simp [getField, hk]
  | cons e fs ih =>
    obtain ⟨k0, w⟩ := e
    intro doc' h
    rw [setPathFields_cons] at h
    by_cases h0 : k0 = c
    · rw [if_pos h0, Res.map_eq_ok] at h
      obtain ⟨w', _, rfl⟩ := h
      have : k0 ≠ k := by rw [h0]; exact hk
      simp [getField, this]
    · rw [if_neg h0, Res.map_eq_ok] at h
      obtain ⟨fs', hfs, rfl⟩ := h
      by_cases h1 : k0 = k
      · simp [getField, h1]
      · simp [getField, h1, ih fs' hfs]

theorem setDocPath_frame {k : String} {path : List String} (hk : path.head? ≠ some k)
    (v : JVal) (doc doc' : JObj) (h : setDocPath doc path v = .ok doc') :
    getField k doc' = getField k doc := by
  cases path with
  | nil => simp [setDocPath] at h
  | cons c cs =>
    have hc : c ≠ k := by simpa using hk
    unfold setDocPath at h
    by_cases h1 : c = ""
    · simp [h1] at h
    · by_cases h2 : dollarName c = true
      · simp [h1, h2] at h
      · simp only [h1, h2, if_false] at h
        exact setPathFields_frame hc cs v doc doc' h

theorem setAll_frame {k : String} (patch : JObj)
    (hk : ∀ e ∈ patch, (splitPath e.1).head? ≠ some k) :
    ∀ (doc doc' : JObj), setAll doc patch = .ok doc' → getField k doc' = getField k doc := by
  induction patch with
  | nil =>
    intro doc doc' h
    simp [setAll] at h
    rw [h]
  | cons e rest ih =>
    obtain ⟨k0, v⟩ := e
    intro doc doc' h
    rw [setAll, Res.bind_eq_ok] at h
    obtain ⟨mid, hmid, hrest⟩ := h
    rw [ih (fun e he => hk e (List.mem_cons_of_mem _ he)) mid doc' hrest]
    exact setDocPath_frame (hk (k0, v) (List.mem_cons_self _ _)) v doc mid hmid

theorem applySet_eq_ok {patch doc doc' : JObj} (h : applySet patch doc = .ok doc') :
    nulFree (obj patch) = true ∧ setAll doc patch = .ok doc' ∧
      getField "_id" doc' = getField "_id" doc := by
  unfold applySet at h
  by_cases hs : nulFree (obj patch) = true
  · simp only [hs, Bool.not_true, Bool.false_eq_true, if_false] at h
    split at h
    · simp at h
    · rw [Res.bind_eq_ok] at h
      obtain ⟨mid, hmid, hfin⟩ := h
      split at hfin
      · rename_i heq
        simp at hfin
        rw [← hfin]
        exact ⟨hs, hmid, heq⟩
      · simp at hfin
  · simp [hs] at h

theorem applySet_frame {k : String} (patch : JObj)
    (hk : ∀ e ∈ patch, (splitPath e.1).head? ≠ some k) (doc doc' : JObj)
    (h : applySet patch doc = .ok doc') : getField k doc' = getField k doc :=
  setAll_frame patch hk doc doc' (applySet_eq_ok h).2.1

theorem updateFirst_frame {β : Type} (f : JObj → β) (q : CQuery) (upd : JObj → Res JObj)
    (hupd : ∀ d d', upd d = .ok d' → f d' = f d) :
    ∀ (l l' : List JObj) (r : Option JObj), updateFirst q upd l = .ok (r, l') →
      l'.map f = l.map f := by
  intro l
  induction l with
  | nil =>
    intro l' r h
    simp [updateFirst] at h
    simp [h.2.symm]
  | cons x xs ih =>
    intro l' r h
    rw [updateFirst, Res.bind_eq_ok] at h
    obtain ⟨b, _, hb⟩ := h
    cases b with
    | true =>
      simp only [if_true, Res.map_eq_ok] at hb
      obtain ⟨d', hd', heq⟩ := hb
      simp only [Prod.mk.injEq] at heq
      rw [← heq.2]
      simp [hupd x d' hd']
    | false =>
      simp only [Bool.false_eq_true, if_false, Res.map_eq_ok] at hb
      obtain ⟨p, hp, heq⟩ := hb
      obtain ⟨r0, l0⟩ := p
      simp only [Prod.mk.injEq] at heq
      rw [← heq.2]
      simp [ih l0 r0 hp]

theorem findOneAndUpdate_frame {β : Type} (f : JObj → β) (s s' : Store) (query : Query)
    (upd : JObj → Res JObj) (hupd : ∀ d d', upd d = .ok d' → f d' = f d) (r : Option JObj)
    (h : findOneAndUpdate s query upd = .ok (r, s')) :
    s'.docs.map f = s.docs.map f := by
  unfold findOneAndUpdate at h
  rw [Res.bind_eq_ok] at h
  obtain ⟨q, _, hq⟩ := h
  rw [Res.map_eq_ok] at hq
  obtain ⟨p, hp, heq⟩ := hq
  obtain ⟨r0, l0⟩ := p
  simp only [Prod.mk.injEq] at heq
  rw [← heq.2]
  exact updateFirst_frame f q upd hupd s.docs l0 r0 hp

theorem putArtifact_frame {β : Type} (f : JObj → β) (s s' : Store) (id : String)
    (body : JObj) (r : Response)
    (hupd : ∀ d d', applySet (protect body) d = .ok d' → f d' = f d)
    (h : putArtifact s id body = some (r, s')) :
    s'.docs.map f = s.docs.map f := by
  unfold putArtifact at h
  split at h
  · simp at h; rw [h.2]
  · split at h
    · simp at h
    · simp at h; rw [h.2]
    · simp at h; rw [h.2]
    · split at h
      · simp at h
      · simp at h; rw [h.2]
      · simp at h; rw [h.2]
      · rename_i result s1 hfu
        simp at h
        rw [← h.2]
        exact findOneAndUpdate_frame f s s1 _ _ hupd _ hfu

theorem mem_protect {e : String × JVal} {body : JObj} (h : e ∈ protect body) : e ∈ body := by
  unfold protect at h
  simp only [mem_delField] at h
  exact h.1.1.1.1

/-- Claim C9 (amended): `create` stores the current time as `dateAdded`, and
an `update` whose body has no key `dateAdded` and no key starting with
`dateAdded.` leaves the `dateAdded` of every stored artifact as it was,
whether it succeeds or fails. -/
theorem update_keeps_dateAdded (s s' : Store) (id : String) (body : JObj) (r : Response)
    (hkeys : ∀ e ∈ body, (splitPath e.1).head? ≠ some "dateAdded")
    (h : putArtifact s id body = some (r, s')) :
    s'.docs.map (getField "dateAdded") = s.docs.map (getField "dateAdded") ∧
    ∀ (artifactData : JObj) (now : Nat),
      getField "dateAdded" (newArtifact artifactData now) = some (date now) :=
  ⟨putArtifact_frame (getField "dateAdded") s s' id body r
    (fun d d' hd => applySet_frame (protect body)
      (fun e he => hkeys e (mem_protect he)) d d' hd) h,
    fun _ _ => getField_setField_same _ _ _⟩

/-- The amended claim C9 on an owner's update of the name. -/
theorem update_keeps_dateAdded_witness :
    (putArtifact shelf vaseId [("userId", str "U1"), ("name", str "Amphora")]).isSome = true ∧
    (setField "name" (str "Amphora") vaseDoc :: []).map (getField "dateAdded") =
      shelf.docs.map (getField "dateAdded") :=
  ⟨by decide, (update_keeps_dateAdded shelf ⟨[setField "name" (str "Amphora") vaseDoc], 1⟩
    vaseId [("userId", str "U1"), ("name", str "Amphora")]
    ⟨200, obj (setField "name" (str "Amphora") vaseDoc)⟩ (by decide) (by decide)).1⟩

/-- Claim C9 as stated fails: the owner's update with the patch
`{dateAdded: "2001-01-01"}` answers 200 and replaces the `dateAdded` set at
creation; the handler does not delete that key from the patch. -/
theorem update_overwrites_dateAdded :
    getField "dateAdded" vaseDoc = some (date 5) ∧
    ∃ d', putArtifact shelf vaseId [("userId", str "U1"), ("dateAdded", str "2001-01-01")] =
        some (⟨200, obj d'⟩, ⟨[d'], 1⟩) ∧
      getField "dateAdded" d' = some (str "2001-01-01") :=
  ⟨by decide, setField "dateAdded" (str "2001-01-01") vaseDoc, by decide, by decide⟩


/-! ## Updates with plain field names -/

theorem splitDots_plain (cs : List Char) (h : '.' ∉ cs) : splitDots cs = [cs] := by
  induction cs with
  | nil => rfl
  | cons c cs ih =>
    have hc : c ≠ '.' := fun hc => h (by simp [hc])
    have hcs : '.' ∉ cs := fun hm => h (List.mem_cons_of_mem _ hm)
    simp [splitDots, ih hcs, hc]

theorem splitPath_plain (k : String) (h : '.' ∉ k.data) : splitPath k = [k] := by
  simp [splitPath, splitDots_plain k.data h]

theorem setPathFields_plain (k : String) (v : JVal) (doc : JObj) :
    setPathFields doc k [] v = .ok (setField k v doc) := by
  induction doc with
  | nil => simp [setPathFields_nil, freshPath, Res.map, nestNew, setField]
  | cons e fs ih =>
    obtain ⟨k0, w⟩ := e
    rw [setPathFields_cons]
    by_cases h : k0 = k
    · subst h
      simp [setPath, Res.map, setField]
    · simp [h, ih, Res.map, setField]

theorem setDocPath_plain (k : String) (v : JVal) (doc : JObj) (hk : topKey k = true) :
    setDocPath doc (splitPath k) v = .ok (setField k v doc) := by
  simp only [topKey, Bool.and_eq_true, decide_eq_true_eq, Bool.not_eq_true'] at hk
  obtain ⟨⟨h1, h2⟩, h3⟩ := hk
  rw [splitPath_plain k h2]
  simp [setDocPath, h1, h3, setPathFields_plain]

theorem setAll_plain (patch : JObj) (hk : ∀ e ∈ patch, topKey e.1 = true) :
    ∀ doc, setAll doc patch = .ok (setFields doc patch) := by
  induction patch with
  | nil => intro doc; rfl
  | cons e rest ih =>
    obtain ⟨k, v⟩ := e
    intro doc
    rw [setAll, setDocPath_plain k v doc (hk (k, v) (List.mem_cons_self _ _))]
    simp only [Res.bind]
    rw [ih (fun e he => hk e (List.mem_cons_of_mem _ he))]
    rfl

theorem getField_setFields_other (k : String) (patch : JObj)
    (hk : k ∉ patch.map Prod.fst) : ∀ doc, getField k (setFields doc patch) = getField k doc := by
  induction patch with
  | nil => intro doc; rfl
  | cons e rest ih =>
    obtain ⟨k0, v⟩ := e
    intro doc
    simp only [List.map_cons, List.mem_cons, not_or] at hk
    show getField k (setFields (setField k0 v doc) rest) = _
    rw [ih hk.2, getField_setField_ne hk.1]

theorem getField_setFields_mem (patch : JObj) (hnd : (patch.map Prod.fst).Nodup) :
    ∀ doc, ∀ e ∈ patch, getField e.1 (setFields doc patch) = some e.2 := by
  induction patch with
  | nil => intro doc e he; simp at he
  | cons e0 rest ih =>
    obtain ⟨k0, v0⟩ := e0
    intro doc e he
    rw [List.map_cons, List.nodup_cons] at hnd
    show getField e.1 (setFields (setField k0 v0 doc) rest) = _
    rcases List.mem_cons.1 he with rfl | hmem
    · rw [getField_setFields_other _ rest hnd.1, getField_setField_same]
    · exact ih hnd.2 _ e hmem

theorem conflicting_plain (keys : List String) (hnd : keys.Nodup) :
    conflicting (keys.map fun k => [k]) = false := by
  induction keys with
  | nil => rfl
  | cons k ks ih =>
    rw [List.nodup_cons] at hnd
    simp only [List.map_cons, conflicting, ih hnd.2, Bool.or_false]
    rw [List.any_eq_false]
    intro q hq
    simp only [List.mem_map] at hq
    obtain ⟨k', hk', rfl⟩ := hq
    have : k ≠ k' := fun h => hnd.1 (h ▸ hk')
    simp [List.isPrefixOf, this, Ne.symm this]

theorem applySet_top (patch doc : JObj) (hser : nulFree (obj patch) = true)
    (hnd : (patch.map Prod.fst).Nodup) (hk : ∀ e ∈ patch, topKey e.1 = true) :
    applySet patch doc =
      if getField "_id" (setFields doc patch) = getField "_id" doc then
        .ok (setFields doc patch)
      else .raise := by
  have hpaths : (patch.map fun e => splitPath e.1) = (patch.map Prod.fst).map fun k => [k] := by
    rw [List.map_map]
    apply List.map_congr_left
    intro e he
    have := hk e he
    simp only [topKey, Bool.and_eq_true, decide_eq_true_eq, Bool.not_eq_true'] at this
    simpa using splitPath_plain e.1 this.1.2
  unfold applySet
  rw [hpaths, conflicting_plain _ hnd, setAll_plain patch hk]
  simp [Res.bind, hser]

theorem topKey_of_plainKey {k : String} (h : plainKey k = true) : topKey k = true := by
  simp only [plainKey, Bool.and_eq_true] at h
  exact h.1

theorem applySet_plain (patch doc : JObj) (hser : nulFree (obj patch) = true)
    (hnd : (patch.map Prod.fst).Nodup) (hk : ∀ e ∈ patch, plainKey e.1 = true) :
    applySet patch doc = .ok (setFields doc patch) := by
  have hid : "_id" ∉ patch.map Prod.fst := by
    intro hmem
    obtain ⟨e, he, heq⟩ := List.mem_map.1 hmem
    have := hk e he
    simp only [plainKey, Bool.and_eq_true, decide_eq_true_eq] at this
    exact this.2 heq
  rw [applySet_top patch doc hser hnd (fun e he => topKey_of_plainKey (hk e he)),
    getField_setFields_other "_id" patch hid]
  simp

theorem getField_eq_some_mem {k : String} {v : JVal} {o : JObj} (h : getField k o = some v) :
    (k, v) ∈ o := by
  induction o with
  | nil => simp [getField] at h
  | cons e fs ih =>
    obtain ⟨k', v'⟩ := e
    by_cases h1 : k' = k
    · simp [getField, h1] at h
      simp [h1, h]
    · simp [getField, h1] at h
      exact List.mem_cons_of_mem _ (ih h)

theorem getField_id_protect (body : JObj) :
    getField "_id" (protect body) = getField "_id" body := by
  unfold protect
  rw [getField_delField_ne (by decide), getField_delField_ne (by decide),
    getField_delField_ne (by decide), getField_delField_ne (by decide)]

theorem nulFree_protect (body : JObj) (h : nulFree (obj body) = true) :
    nulFree (obj (protect body)) = true := by
  rw [nulFree_obj] at h ⊢
  unfold protect
  exact nulFreeFields_delField _ _ (nulFreeFields_delField _ _
    (nulFreeFields_delField _ _ (nulFreeFields_delField _ _ h)))

theorem protect_nodup (body : JObj) (h : (body.map Prod.fst).Nodup) :
    ((protect body).map Prod.fst).Nodup := by
  apply List.Nodup.sublist _ h
  apply List.Sublist.map
  unfold protect delField
  exact (List.filter_sublist _).trans ((List.filter_sublist _).trans
    ((List.filter_sublist _).trans (List.filter_sublist _)))

theorem findOne_owner (s : Store) (n : Nat) (u o : String) (d owner : JObj)
    (hwf : s.WF) (hd : d ∈ s.docs) (hid : getField "_id" d = some (oid n))
    (hadded : getField "addedBy" d = some (obj owner))
    (huid : getField "uid" owner = some (str o)) :
    findOne s [("_id", oid n), ("addedBy.uid", str u)] =
      .ok (if o = u then some d else none) := by
  rw [findOne_id_cond s n "addedBy.uid" (str u) d [Pred.eq (str u)] rfl rfl hwf hd hid]
  have hsplit : splitPath "addedBy.uid" = ["addedBy", "uid"] := by decide
  rw [hsplit, matchDoc_cons]
  have hres : resolvePath ["addedBy", "uid"] (obj d) = .ok (getField "uid" owner) := by
    rw [resolvePath, hadded]
    exact resolvePath_single "uid" owner
  rw [hres, huid]
  by_cases h : o = u <;> simp [Res.bind, Pred.holds, eqMatch, matchDoc, h]

/-- Claim C10 (amended): take a collection with unique `_id`s, an
artifact stored under the `ObjectId` that `id` denotes whose `addedBy.uid` is
the string `userId` of the body, and a body with distinct keys and no U+0000
in a field name.  When the keys of the body other than `likes`, `likedBy`,
`addedBy`, `userId` are plain top-level field names other than `_id`,
`update` answers 200 with the updated artifact, in which every remaining
field of the patch has the patch's value and every other field its prior
value; the other artifacts are unchanged.  When those keys are plain
top-level field names and `_id` is one of them, with a value other than the
stored `ObjectId`, `update` answers 500 and the collection is left as it
was.  In particular, after creating an artifact owned by `U1`, the update by
`U2` answers 404 `Artifact not found or unauthorized` and the update by `U1`
with `{name: "X"}` answers 200 with a document whose `name` is `X`. -/
theorem update_by_owner :
    (∀ (s : Store) (id : String) (n : Nat) (body : JObj) (u : String) (d owner : JObj),
      s.WF → parseObjectId id = some n → d ∈ s.docs → getField "_id" d = some (oid n) →
      getField "addedBy" d = some (obj owner) → getField "uid" owner = some (str u) →
      getField "userId" body = some (str u) → (body.map Prod.fst).Nodup →
      nulFree (obj body) = true →
      ((∀ e ∈ protect body, plainKey e.1 = true) →
        ∃ d', putArtifact s id body =
            some (⟨200, obj d'⟩, ⟨replaceId n d' s.docs, s.next⟩) ∧
          (∀ e ∈ protect body, getField e.1 d' = some e.2) ∧
          (∀ k, k ∉ (protect body).map Prod.fst → getField k d' = getField k d)) ∧
      ((∀ e ∈ protect body, topKey e.1 = true) →
        ∀ v, getField "_id" body = some v → v ≠ oid n →
          putArtifact s id body =
            some (⟨500, obj [("error", str "Failed to update artifact")]⟩, s))) ∧
    (∃ a s1 x,
      postArtifact ⟨[], 0⟩ vase 5 =
        some (⟨201, obj [("message", str "Artifact added successfully"),
          ("insertedId", oid 0)]⟩, s1) ∧
      s1.docs = [a] ∧ getField "addedBy" a = some (obj [("uid", str "U1")]) ∧
      putArtifact s1 vaseId [("userId", str "U2"), ("name", str "X")] =
        some (⟨404, obj [("error", str "Artifact not found or unauthorized")]⟩, s1) ∧
      putArtifact s1 vaseId [("userId", str "U1"), ("name", str "X")] =
        some (⟨200, obj x⟩, ⟨[x], 1⟩) ∧
      getField "name" x = some (str "X")) := by
  refine ⟨?_, vaseDoc, shelf, setField "name" (str "X") vaseDoc, by decide, by decide,
    by decide, by decide, by decide, by decide⟩
  intro s id n body u d owner hwf hparse hd hid hadded huid hbody hnodup hser
  have hnd := protect_nodup body hnodup
  have hser' := nulFree_protect body hser
  constructor
  · intro hplain
    refine ⟨setFields d (protect body), ?_, ?_, ?_⟩
    · unfold putArtifact
      simp only [hparse, hbody, bson]
      rw [findOne_owner s n u u d owner hwf hd hid hadded huid]
      simp only [if_true]
      rw [findOneAndUpdate_id s n _ d hwf hd hid,
        applySet_plain (protect body) d hser' hnd hplain]
      rfl
    · exact getField_setFields_mem (protect body) hnd d
    · intro k hk
      exact getField_setFields_other k (protect body) hk d
  · intro htop v hv hne
    have hmem : ("_id", v) ∈ protect body :=
      getField_eq_some_mem ((getField_id_protect body).trans hv)
    have hnew : getField "_id" (setFields d (protect body)) = some v :=
      getField_setFields_mem (protect body) hnd d ("_id", v) hmem
    have hdiff : ¬ getField "_id" (setFields d (protect body)) = getField "_id" d := by
      rw [hnew, hid]
      intro h
      exact hne (Option.some.inj h)
    unfold putArtifact
    simp only [hparse, hbody, bson]
    rw [findOne_owner s n u u d owner hwf hd hid hadded huid]
    simp only [if_true]
    rw [findOneAndUpdate_id s n _ d hwf hd hid,
      applySet_top (protect body) d hser' hnd htop, if_neg hdiff]
    rfl

/-- The amended claim C10 on an owner's patch that also carries `likes`. -/
theorem update_by_owner_witness :
    ∃ d', putArtifact shelf vaseId [("userId", str "U1"), ("name", str "X"), ("likes", num 7)] =
        some (⟨200, obj d'⟩, ⟨replaceId 0 d' shelf.docs, shelf.next⟩) ∧
      (∀ e ∈ protect [("userId", str "U1"), ("name", str "X"), ("likes", num 7)],
        getField e.1 d' = some e.2) ∧
      (∀ k, k ∉ (protect [("userId", str "U1"), ("name", str "X"), ("likes", num 7)]).map
        Prod.fst → getField k d' = getField k vaseDoc) :=
  (update_by_owner.1 shelf vaseId 0 [("userId", str "U1"), ("name", str "X"), ("likes", num 7)]
    "U1" vaseDoc [("uid", str "U1")] (by decide) (by decide) (by decide) (by decide)
    (by decide) (by decide) (by decide) (by decide) (by decide)).1 (by decide)

/-- Claim C10 as stated fails: the owner's update whose patch carries `_id`
(here the identifier as the client holds it, a string) is rejected by the
store, which does not let `_id` change, and the handler answers 500. -/
theorem update_with_id_in_patch_fails :
    getField "addedBy" vaseDoc = some (obj [("uid", str "U1")]) ∧
    putArtifact shelf vaseId [("userId", str "U1"), ("_id", str "000000000000000000000000")] =
      some (⟨500, obj [("error", str "Failed to update artifact")]⟩, shelf) :=
  ⟨by decide, by decide⟩

/-! ## Search -/

theorem allMatches_nil_query (l : List JObj) : allMatches [] l = .ok l := by
  induction l with
  | nil => rfl
  | cons d ds ih => simp [allMatches, matchDoc, Res.bind, ih, Res.map]

theorem find_all (s : Store) : find s [] = .ok s.docs := by
  simp [find, compileQuery, Res.bind, allMatches_nil_query]

theorem getArtifacts_eq (s : Store) :
    getArtifacts s = some (⟨200, arr (s.docs.map obj)⟩, s) := by
  simp [getArtifacts, find_all, docsBody]

theorem lexPattern_plain (cs : List Char)
    (h : ∀ c ∈ cs, c ∉ metaChars ∧ c.toNat < 128) :
    lexPattern cs = .ok (cs.map fun c => Tok.atom (.lit c)) := by
  induction cs with
  | nil => rfl
  | cons c cs ih =>
    obtain ⟨hc, hascii⟩ := h c (List.mem_cons_self _ _)
    have hcs := ih (fun x hx => h x (List.mem_cons_of_mem _ hx))
    have hc' := hc
    simp only [metaChars, List.mem_cons, List.mem_singleton, not_or, List.not_mem_nil,
      or_false] at hc'
    obtain ⟨h1, _, _, h4, _, h6, h7, h8, _⟩ := hc'
    have h0 : ¬ 128 ≤ c.toNat := Nat.not_le.2 hascii
    rw [lexPattern.eq_def]
    simp only [if_neg h0, if_neg h1, if_neg h4, if_neg h7, if_neg h8, if_neg h6, if_neg hc, hcs]
    rfl

theorem groupToks_atoms (cs : List Char) :
    groupToks (cs.map fun c => Tok.atom (.lit c)) =
      .ok (cs.map fun c => (Atom.lit c, Quant.one)) := by
  induction cs with
  | nil => rfl
  | cons c cs ih =>
    cases cs with
    | nil => simp [groupToks, Res.map]
    | cons c' cs' =>
      simp only [List.map_cons] at ih ⊢
      simp [groupToks, ih, Res.map]

theorem plainFragment_iff (frag : String) :
    plainFragment frag = true ↔
      ∀ c ∈ frag.data, c ∉ metaChars ∧ c.toNat < 128 ∧ c ≠ Char.ofNat 0 := by
  simp [plainFragment, List.all_eq_true, and_assoc]

theorem parsePattern_plain (frag : String) (h : plainFragment frag = true) :
    parsePattern frag = .ok (frag.data.map fun c => (Atom.lit c, Quant.one)) := by
  rw [plainFragment_iff] at h
  have hnul : Char.ofNat 0 ∉ frag.data := fun hm => (h _ hm).2.2 rfl
  have hlex := lexPattern_plain frag.data (fun c hc => ⟨(h c hc).1, (h c hc).2.1⟩)
  simp [parsePattern, hnul, hlex, Res.bind, groupToks_atoms]

theorem matchHere_lits (cs : List Char) :
    ∀ text, matchHere (cs.map fun c => (Atom.lit c, Quant.one)) text = true ↔
      cs.map Char.toLower <+: text.map Char.toLower := by
  induction cs with
  | nil => intro text; simp [matchHere]
  | cons c cs ih =>
    intro text
    cases text with
    | nil => simp [matchHere]
    | cons t ts =>
      simp only [List.map_cons, matchHere, Bool.and_eq_true, atomMatches, decide_eq_true_eq,
        List.cons_prefix_cons]
      rw [ih ts]

theorem matchAnywhere_lits (cs : List Char) :
    ∀ text, matchAnywhere (cs.map fun c => (Atom.lit c, Quant.one)) text = true ↔
      cs.map Char.toLower <:+: text.map Char.toLower := by
  intro text
  induction text with
  | nil =>
    rw [matchAnywhere, matchHere_lits]
    simp
  | cons t ts ih =>
    rw [matchAnywhere, Bool.or_eq_true, matchHere_lits, ih, List.map_cons, List.infix_cons_iff]

theorem regexMatch_plain (frag : String) (d : JObj) (hname : asciiName d = true) :
    regexMatch (frag.data.map fun c => (Atom.lit c, Quant.one)) (getField "name" d) =
      .ok (nameContains frag d) := by
  unfold nameContains
  unfold asciiName at hname
  cases h : getField "name" d with
  | none => rfl
  | some v =>
    rw [h] at hname
    cases v with
    | arr xs => simp at hname
    | str nm =>
      have hascii : asciiText nm.data = true := hname
      simp only [regexMatch, regexOnString, hascii, if_true, Res.ok.injEq]
      rw [Bool.eq_iff_iff, matchAnywhere_lits]
      simp
    | _ => rfl

theorem regexMatches_plain (frag : String) (l : List JObj)
    (hnames : ∀ d ∈ l, asciiName d = true) :
    regexMatches (frag.data.map fun c => (Atom.lit c, Quant.one)) l =
      .ok (l.filter (nameContains frag)) := by
  induction l with
  | nil => rfl
  | cons d ds ih =>
    rw [regexMatches, regexMatch_plain frag d (hnames d (List.mem_cons_self _ _)),
      ih (fun x hx => hnames x (List.mem_cons_of_mem _ hx))]
    cases hb : nameContains frag d <;> simp [Res.bind, Res.map, List.filter_cons, hb]

/-- Claim C7 (amended): without a fragment, or with the empty one, `search`
returns what `listAll` returns, every stored artifact; with a non-empty
fragment of ASCII characters, none of them special in a regular expression
and none U+0000, on a collection whose names are ASCII strings (or neither
strings nor arrays), it returns exactly the artifacts whose name is a string
containing the fragment as a substring, letter case ignored. -/
theorem search_plain_fragment (s : Store) :
    getArtifacts s = some (⟨200, arr (s.docs.map obj)⟩, s) ∧
    searchArtifacts s none = some (⟨200, arr (s.docs.map obj)⟩, s) ∧
    searchArtifacts s (some "") = some (⟨200, arr (s.docs.map obj)⟩, s) ∧
    ∀ nameFragment : String, nameFragment ≠ "" → plainFragment nameFragment = true →
      (∀ d ∈ s.docs, asciiName d = true) →
      searchArtifacts s (some nameFragment) =
        some (⟨200, arr ((s.docs.filter (nameContains nameFragment)).map obj)⟩, s) := by
  refine ⟨getArtifacts_eq s, ?_, ?_, ?_⟩
  · simp [searchArtifacts, truthy, find_all, docsBody]
  · simp [searchArtifacts, truthy, find_all, docsBody]
  · intro frag hne hplain hnames
    have ht : truthy (Option.map str (some frag)) = true := by simp [truthy, hne]
    simp only [searchArtifacts, ht, Bool.not_true, Bool.false_eq_true, if_false,
      findByNameRegex, parsePattern_plain frag hplain, Res.bind, Option.getD_some,
      regexMatches_plain frag s.docs hnames, docsBody]

/-- The amended claim C7 on the spec's example: `abc` finds `ABCdef`. -/
theorem search_plain_fragment_witness :
    searchArtifacts ⟨[[("_id", oid 0), ("name", str "ABCdef")], [("_id", oid 1), ("name", str "xyz")]], 2⟩
        (some "abc") =
      some (⟨200, arr [obj [("_id", oid 0), ("name", str "ABCdef")]]⟩,
        ⟨[[("_id", oid 0), ("name", str "ABCdef")], [("_id", oid 1), ("name", str "xyz")]], 2⟩) :=
  ((search_plain_fragment
    ⟨[[("_id", oid 0), ("name", str "ABCdef")], [("_id", oid 1), ("name", str "xyz")]], 2⟩).2.2.2
    "abc" (by decide) (by decide) (by decide)).trans (by decide)

/-- Claim C7 as stated fails: the fragment is read as a regular expression,
so `.` finds the artifact named `Vase`, whose name does not contain a dot,
and `*`, which is no regular expression, makes the handler answer 500. -/
theorem search_reads_fragment_as_pattern :
    getField "name" vaseDoc = some (str "Vase") ∧
    nameContains "." vaseDoc = false ∧
    searchArtifacts shelf (some ".") = some (⟨200, arr [obj vaseDoc]⟩, shelf) ∧
    searchArtifacts shelf (some "*") =
      some (⟨500, obj [("error", str "Failed to search artifacts")]⟩, shelf) :=
  ⟨by decide, by decide, by decide, by decide⟩

/-! ## Ranking -/

theorem likesKey_isSome_of_num {d : JObj} {n : Int} (h : getField "likes" d = some (num n)) :
    (likesKey d).isSome = true := by
  simp [likesKey, h]

theorem exists_num_of_likesKey {d : JObj} (h : (likesKey d).isSome = true) :
    ∃ n, getField "likes" d = some (num n) := by
  unfold likesKey at h
  cases hl : getField "likes" d with
  | none => simp [hl] at h
  | some v => cases v <;> simp_all

theorem likesOf_of_num {d : JObj} {n : Int} (h : getField "likes" d = some (num n)) :
    likesOf d = n := by
  simp [likesOf, likesKey, h]

/-- Claim C8: when every stored `likes` is a number, `topLiked` answers 200
with a JSON array of `min 6 n` of the `n` stored artifacts, each taken once
(with the others they make up the collection), in which the stored `likes`
never increase from one artifact to a later one, and every artifact of which
has at least the stored `likes` of every artifact left out. -/
theorem topLiked_spec (s : Store)
    (hnum : ∀ d ∈ s.docs, ∃ n, getField "likes" d = some (num n)) :
    ∃ top rest : List JObj,
      topLiked s = some (⟨200, arr (top.map obj)⟩, s) ∧
      top.length = min 6 s.docs.length ∧
      (top ++ rest).Perm s.docs ∧
      top.Pairwise (fun a b => ∃ x y, getField "likes" a = some (num x) ∧
        getField "likes" b = some (num y) ∧ y ≤ x) ∧
      ∀ a ∈ top, ∀ b ∈ rest, ∃ x y, getField "likes" a = some (num x) ∧
        getField "likes" b = some (num y) ∧ y ≤ x := by
  have hall : s.docs.all (fun d => (likesKey d).isSome) = true := by
    rw [List.all_eq_true]
    intro d hd
    obtain ⟨n, hn⟩ := hnum d hd
    exact likesKey_isSome_of_num hn
  have hsorted := List.sorted_insertionSort (fun a b : JObj => likesOf b ≤ likesOf a) s.docs
  have hperm := List.perm_insertionSort (fun a b : JObj => likesOf b ≤ likesOf a) s.docs
  have hsplit := List.take_append_drop 6 (s.docs.insertionSort fun a b => likesOf b ≤ likesOf a)
  have hstored : ∀ a b, a ∈ s.docs → b ∈ s.docs → likesOf b ≤ likesOf a →
      ∃ x y, getField "likes" a = some (num x) ∧ getField "likes" b = some (num y) ∧ y ≤ x := by
    intro a b ha hb hle
    obtain ⟨x, hx⟩ := hnum a ha
    obtain ⟨y, hy⟩ := hnum b hb
    rw [likesOf_of_num hx, likesOf_of_num hy] at hle
    exact ⟨x, y, hx, hy, hle⟩
  have htop : ∀ a, a ∈ (s.docs.insertionSort fun a b => likesOf b ≤ likesOf a).take 6 →
      a ∈ s.docs := fun a ha => hperm.subset (List.take_subset _ _ ha)
  have hrest : ∀ a, a ∈ (s.docs.insertionSort fun a b => likesOf b ≤ likesOf a).drop 6 →
      a ∈ s.docs := fun a ha => hperm.subset (List.drop_subset _ _ ha)
  refine ⟨(s.docs.insertionSort (fun a b => likesOf b ≤ likesOf a)).take 6,
    (s.docs.insertionSort (fun a b => likesOf b ≤ likesOf a)).drop 6, ?_, ?_, ?_, ?_, ?_⟩
  · simp [topLiked, findTopLiked, hall, docsBody]
  · rw [List.length_take, hperm.length_eq]
  · rw [hsplit]
    exact hperm
  · have hp : ((s.docs.insertionSort fun a b => likesOf b ≤ likesOf a).take 6).Pairwise
        (fun a b => likesOf b ≤ likesOf a) :=
      List.Pairwise.sublist (List.take_sublist _ _) hsorted
    exact hp.imp_of_mem fun {a b} ha hb hle => hstored a b (htop a ha) (htop b hb) hle
  · intro a ha b hb
    have h := hsorted
    rw [← hsplit] at h
    exact hstored a b (htop a ha) (hrest b hb) ((List.pairwise_append.1 h).2.2 a ha b hb)

/-- Claim C8 on a collection of seven artifacts with 3, 9, 1, 7, 5, 2 and 8
likes: the answer lists those with 9, 8, 7, 5, 3 and 2 likes, in this order. -/
theorem topLiked_spec_witness :
    (∃ top rest : List JObj,
      topLiked gallery = some (⟨200, arr (top.map obj)⟩, gallery) ∧
      top.length = min 6 gallery.docs.length ∧
      (top ++ rest).Perm gallery.docs ∧
      top.Pairwise (fun a b => ∃ x y, getField "likes" a = some (num x) ∧
        getField "likes" b = some (num y) ∧ y ≤ x) ∧
      ∀ a ∈ top, ∀ b ∈ rest, ∃ x y, getField "likes" a = some (num x) ∧
        getField "likes" b = some (num y) ∧ y ≤ x) ∧
    topLiked gallery =
      some (⟨200, arr [obj [("_id", oid 1), ("likes", num 9)],
        obj [("_id", oid 6), ("likes", num 8)], obj [("_id", oid 3), ("likes", num 7)],
        obj [("_id", oid 4), ("likes", num 5)], obj [("_id", oid 0), ("likes", num 3)],
        obj [("_id", oid 5), ("likes", num 2)]]⟩, gallery) :=
  ⟨topLiked_spec gallery fun d hd =>
    exists_num_of_likesKey
      ((by decide : ∀ d ∈ gallery.docs, (likesKey d).isSome = true) d hd), by decide⟩

/-! ## Ownership check for string user identifiers -/

/-- For string user identifiers the ownership lookup works: when the
artifact's `addedBy.uid` is a string other than the `userId` of the body,
`update` and `delete` answer 404 and leave the collection unchanged. -/
theorem non_owner_rejected (s : Store) (id : String) (n : Nat) (body : JObj) (u o : String)
    (d owner : JObj) (hwf : s.WF) (hparse : parseObjectId id = some n) (hd : d ∈ s.docs)
    (hid : getField "_id" d = some (oid n))
    (hadded : getField "addedBy" d = some (obj owner))
    (huid : getField "uid" owner = some (str o))
    (hbody : getField "userId" body = some (str u)) (hne : o ≠ u) :
    putArtifact s id body =
        some (⟨404, errorBody "Artifact not found or unauthorized"⟩, s) ∧
    deleteArtifact s id body =
        some (⟨404, errorBody "Artifact not found or unauthorized"⟩, s) := by
  constructor
  · unfold putArtifact
    simp only [hparse, hbody, bson]
    rw [findOne_owner s n u o d owner hwf hd hid hadded huid]
    simp [hne]
  · unfold deleteArtifact
    simp only [hparse, hbody, bson]
    rw [findOne_owner s n u o d owner hwf hd hid hadded huid]
    simp [hne]

/-! ## Shape of the reachable collections -/

theorem arrayId_eq (d : JObj) : arrayId d = isArray (getField "_id" d) := by
  unfold arrayId isArray
  cases getField "_id" d with
  | none => rfl
  | some v => cases v <;> rfl

theorem wf_of_ids (s s' : Store) (hwf : s.WF)
    (hsub : (s'.docs.map (getField "_id")).Sublist (s.docs.map (getField "_id"))) : s'.WF := by
  refine ⟨?_, hwf.2.sublist hsub⟩
  intro d hd
  rw [arrayId_eq]
  have hmem : getField "_id" d ∈ s.docs.map (getField "_id") :=
    hsub.subset (List.mem_map_of_mem _ hd)
  obtain ⟨x, hx, hxe⟩ := List.mem_map.1 hmem
  rw [← hxe, ← arrayId_eq]
  exact hwf.1 x hx

theorem updateFirst_forall (P : JObj → Prop) (q : CQuery) (upd : JObj → Res JObj)
    (hupd : ∀ d d', P d → upd d = .ok d' → P d') :
    ∀ (l l' : List JObj) (r : Option JObj), (∀ x ∈ l, P x) →
      updateFirst q upd l = .ok (r, l') → ∀ x ∈ l', P x := by
  intro l
  induction l with
  | nil =>
    intro l' r _ h
    simp [updateFirst] at h
    rw [h.2]
    simp
  | cons x xs ih =>
    intro l' r hP h
    rw [updateFirst, Res.bind_eq_ok] at h
    obtain ⟨b, _, hb⟩ := h
    cases b with
    | true =>
      simp only [if_true, Res.map_eq_ok] at hb
      obtain ⟨d', hd', heq⟩ := hb
      simp only [Prod.mk.injEq] at heq
      rw [← heq.2]
      intro y hy
      rcases List.mem_cons.1 hy with rfl | hy
      · exact hupd x _ (hP x (List.mem_cons_self _ _)) hd'
      · exact hP y (List.mem_cons_of_mem _ hy)
    | false =>
      simp only [Bool.false_eq_true, if_false, Res.map_eq_ok] at hb
      obtain ⟨p, hp, heq⟩ := hb
      obtain ⟨r0, l0⟩ := p
      simp only [Prod.mk.injEq] at heq
      rw [← heq.2]
      intro y hy
      rcases List.mem_cons.1 hy with rfl | hy
      · exact hP _ (List.mem_cons_self _ _)
      · exact ih l0 r0 (fun z hz => hP z (List.mem_cons_of_mem _ hz)) hp y hy

theorem findOneAndUpdate_sound (s s' : Store) (query : Query) (upd : JObj → Res JObj)
    (r : Option JObj) (hs : s.Sound)
    (hid : ∀ d d', upd d = .ok d' → getField "_id" d' = getField "_id" d)
    (hc : ∀ d d', countersOk d = true → upd d = .ok d' → countersOk d' = true)
    (h : findOneAndUpdate s query upd = .ok (r, s')) : s'.Sound := by
  have hids := findOneAndUpdate_frame (getField "_id") s s' query upd hid r h
  refine ⟨wf_of_ids s s' hs.1 (by rw [hids]), ?_⟩
  unfold findOneAndUpdate at h
  rw [Res.bind_eq_ok] at h
  obtain ⟨q, _, hq⟩ := h
  rw [Res.map_eq_ok] at hq
  obtain ⟨p, hp, heq⟩ := hq
  obtain ⟨r0, l0⟩ := p
  simp only [Prod.mk.injEq] at heq
  rw [← heq.2]
  exact updateFirst_forall (fun d => countersOk d = true) q upd hc s.docs l0 r0 hs.2 hp

theorem splitDots_ne_nil (cs : List Char) : splitDots cs ≠ [] := by
  cases cs with
  | nil => simp [splitDots]
  | cons c cs =>
    rw [splitDots]
    split
    · simp
    · split <;> simp

theorem splitDots_singleton (cs p : List Char) (h : splitDots cs = [p]) : p = cs := by
  induction cs generalizing p with
  | nil =>
    simp [splitDots] at h
    exact h
  | cons c cs ih =>
    rw [splitDots] at h
    cases hs : splitDots cs with
    | nil => exact absurd hs (splitDots_ne_nil cs)
    | cons q qs =>
      rw [hs] at h
      by_cases hc : c = '.'
      · simp [hc] at h
      · simp only [hc, if_false, List.cons.injEq] at h
        obtain ⟨h1, h2⟩ := h
        subst h2
        rw [← h1, ih q hs]

theorem splitPath_singleton (k c : String) (h : splitPath k = [c]) : c = k := by
  unfold splitPath at h
  cases hs : splitDots k.data with
  | nil => exact absurd hs (splitDots_ne_nil _)
  | cons p ps =>
    rw [hs] at h
    simp only [List.map_cons, List.cons.injEq, List.map_eq_nil_iff] at h
    obtain ⟨h1, h2⟩ := h
    subst h2
    rw [← h1, splitDots_singleton k.data p hs]

theorem setPathFields_at (c : String) (cs : List String) (v w : JVal) :
    ∀ (doc doc' : JObj), getField c doc = some w → setPathFields doc c cs v = .ok doc' →
      ∃ w', setPath w cs v = .ok w' ∧ getField c doc' = some w' := by
  intro doc
  induction doc with
  | nil => intro doc' hw; simp [getField] at hw
  | cons e fs ih =>
    obtain ⟨k0, w0⟩ := e
    intro doc' hw h
    rw [setPathFields_cons] at h
    by_cases h0 : k0 = c
    · rw [if_pos h0, Res.map_eq_ok] at h
      obtain ⟨w', hw', rfl⟩ := h
      simp only [getField, h0, if_true, Option.some.injEq] at hw
      subst hw
      exact ⟨w', hw', by simp [getField, h0]⟩
    · rw [if_neg h0, Res.map_eq_ok] at h
      obtain ⟨fs', hfs, rfl⟩ := h
      simp only [getField, h0, if_false] at hw
      obtain ⟨w', hw', hg⟩ := ih fs' hw hfs
      exact ⟨w', hw', by simp [getField, h0, hg]⟩

theorem setPath_num (n : Int) (c : String) (cs : List String) (v : JVal) :
    setPath (num n) (c :: cs) v = .raise := by
  simp [setPath]

theorem setPath_arr (xs : List JVal) (c : String) (cs : List String) (v w' : JVal)
    (h : setPath (arr xs) (c :: cs) v = .ok w') : isArray (some w') = true := by
  rw [setPath] at h
  split at h
  · simp at h
  · split at h
    · simp at h
    · split at h
      · simp at h
      · split at h
        · simp at h
        · rw [Res.map_eq_ok] at h
          obtain ⟨ys, _, rfl⟩ := h
          rfl

theorem setDocPath_counters (k : String) (v : JVal) (doc doc' : JObj)
    (hk1 : k ≠ "likes") (hk2 : k ≠ "likedBy") (hc : countersOk doc = true)
    (h : setDocPath doc (splitPath k) v = .ok doc') : countersOk doc' = true := by
  simp only [countersOk, Bool.and_eq_true] at hc ⊢
  obtain ⟨hl, hb⟩ := hc
  obtain ⟨n, hn⟩ := exists_num_of_likesKey hl
  cases hp : splitPath k with
  | nil => rw [hp] at h; simp [setDocPath] at h
  | cons c cs =>
    rw [hp] at h
    have h' := h
    unfold setDocPath at h'
    by_cases e1 : c = ""
    · simp [e1] at h'
    by_cases e2 : dollarName c = true
    · simp [e1, e2] at h'
    simp only [e1, e2, if_false] at h'
    constructor
    · by_cases hcl : c = "likes"
      · subst hcl
        cases cs with
        | nil => exact absurd (splitPath_singleton k _ hp).symm hk1
        | cons c' cs' =>
          obtain ⟨w', hw', _⟩ := setPathFields_at _ _ v _ doc doc' hn h'
          rw [setPath_num] at hw'
          simp at hw'
      · have := setPathFields_frame (k := "likes") hcl cs v doc doc' h'
        exact likesKey_isSome_of_num (this.trans hn)
    · by_cases hcl : c = "likedBy"
      · subst hcl
        cases cs with
        | nil => exact absurd (splitPath_singleton k _ hp).symm hk2
        | cons c' cs' =>
          cases hg : getField "likedBy" doc with
          | none => simp [hg, isArray] at hb
          | some w =>
            cases w with
            | arr xs =>
              obtain ⟨w', hw', hg'⟩ := setPathFields_at _ _ v _ doc doc' hg h'
              rw [hg']
              exact setPath_arr xs c' cs' v w' hw'
            | _ => simp [hg, isArray] at hb
      · rw [setPathFields_frame (k := "likedBy") hcl cs v doc doc' h']
        exact hb

theorem setAll_counters (patch : JObj)
    (hk : ∀ e ∈ patch, e.1 ≠ "likes" ∧ e.1 ≠ "likedBy") :
    ∀ (doc doc' : JObj), countersOk doc = true → setAll doc patch = .ok doc' →
      countersOk doc' = true := by
  induction patch with
  | nil =>
    intro doc doc' hc h
    simp [setAll] at h
    rw [← h]
    exact hc
  | cons e rest ih =>
    obtain ⟨k0, v⟩ := e
    intro doc doc' hc h
    rw [setAll, Res.bind_eq_ok] at h
    obtain ⟨mid, hmid, hrest⟩ := h
    have h0 := hk (k0, v) (List.mem_cons_self _ _)
    exact ih (fun e he => hk e (List.mem_cons_of_mem _ he)) mid doc'
      (setDocPath_counters k0 v doc mid h0.1 h0.2 hc hmid) hrest

theorem applySet_id (patch doc doc' : JObj) (h : applySet patch doc = .ok doc') :
    getField "_id" doc' = getField "_id" doc :=
  (applySet_eq_ok h).2.2

theorem applySet_counters (body doc doc' : JObj) (hc : countersOk doc = true)
    (h : applySet (protect body) doc = .ok doc') : countersOk doc' = true := by
  refine setAll_counters (protect body) ?_ doc doc' hc (applySet_eq_ok h).2.1
  intro e he
  unfold protect at he
  simp only [mem_delField] at he
  exact ⟨he.1.1.1.2, he.1.1.2⟩

theorem putArtifact_sound (s s' : Store) (id : String) (body : JObj) (r : Response)
    (hs : s.Sound) (h : putArtifact s id body = some (r, s')) : s'.Sound := by
  unfold putArtifact at h
  split at h
  · simp at h; rw [← h.2]; exact hs
  · split at h
    · simp at h
    · simp at h; rw [← h.2]; exact hs
    · simp at h; rw [← h.2]; exact hs
    · split at h
      · simp at h
      · simp at h; rw [← h.2]; exact hs
      · simp at h; rw [← h.2]; exact hs
      · rename_i result s1 hfu
        simp at h
        rw [← h.2]
        exact findOneAndUpdate_sound s s1 _ _ _ hs
          (fun d d' hd => applySet_id _ d d' hd)
          (fun d d' hc hd => applySet_counters body d d' hc hd) hfu

theorem applyLike_id (v : JVal) (doc doc' : JObj) (h : applyLike v doc = .ok doc') :
    getField "_id" doc' = getField "_id" doc ∧ countersOk doc' = true := by
  unfold applyLike at h
  split at h
  · simp at h
  split at h
  · simp at h
  · rw [Res.bind_eq_ok] at h
    obtain ⟨mid, hmid, hpush⟩ := h
    have hmid' : getField "_id" mid = getField "_id" doc ∧ (likesKey mid).isSome = true ∧
        getField "likedBy" mid = getField "likedBy" doc := by
      unfold incLikes at hmid
      split at hmid
      · simp at hmid
        rw [← hmid]
        exact ⟨getField_setField_ne (by decide) _ _,
          likesKey_isSome_of_num (getField_setField_same _ _ _),
          getField_setField_ne (by decide) _ _⟩
      · simp at hmid
        rw [← hmid]
        exact ⟨getField_setField_ne (by decide) _ _,
          likesKey_isSome_of_num (getField_setField_same _ _ _),
          getField_setField_ne (by decide) _ _⟩
      · simp at hmid
    obtain ⟨n, hn⟩ := exists_num_of_likesKey hmid'.2.1
    unfold pushLikedBy at hpush
    split at hpush
    · simp at hpush
      rw [← hpush]
      refine ⟨(getField_setField_ne (by decide) _ _).trans hmid'.1, ?_⟩
      simp only [countersOk, Bool.and_eq_true]
      exact ⟨likesKey_isSome_of_num ((getField_setField_ne (by decide) _ _).trans hn),
        by rw [getField_setField_same]; rfl⟩
    · simp at hpush
      rw [← hpush]
      refine ⟨(getField_setField_ne (by decide) _ _).trans hmid'.1, ?_⟩
      simp only [countersOk, Bool.and_eq_true]
      exact ⟨likesKey_isSome_of_num ((getField_setField_ne (by decide) _ _).trans hn),
        by rw [getField_setField_same]; rfl⟩
    · simp at hpush

theorem likeArtifact_sound (s s' : Store) (id : String) (body : JObj) (r : Response)
    (hs : s.Sound) (h : likeArtifact s id body = some (r, s')) : s'.Sound := by
  unfold likeArtifact at h
  split at h
  · simp at h; rw [← h.2]; exact hs
  · split at h
    · simp at h; rw [← h.2]; exact hs
    · split at h
      · simp at h
      · simp at h; rw [← h.2]; exact hs
      · simp at h; rw [← h.2]; exact hs
      · split at h
        · simp at h
        · simp at h; rw [← h.2]; exact hs
        · simp at h; rw [← h.2]; exact hs
        · rename_i result s1 hfu
          simp at h
          rw [← h.2]
          exact findOneAndUpdate_sound s s1 _ _ _ hs
            (fun d d' hd => (applyLike_id _ d d' hd).1)
            (fun d d' _ hd => (applyLike_id _ d d' hd).2) hfu

theorem removeFirst_sublist (q : CQuery) :
    ∀ (l l' : List JObj) (k : Nat), removeFirst q l = .ok (k, l') → l'.Sublist l := by
  intro l
  induction l with
  | nil =>
    intro l' k h
    simp [removeFirst] at h
    simp [← h.2]
  | cons x xs ih =>
    intro l' k h
    rw [removeFirst, Res.bind_eq_ok] at h
    obtain ⟨b, _, hb⟩ := h
    cases b with
    | true =>
      simp at hb
      rw [← hb.2]
      exact List.sublist_cons_self _ _
    | false =>
      simp only [Bool.false_eq_true, if_false, Res.map_eq_ok] at hb
      obtain ⟨p, hp, heq⟩ := hb
      obtain ⟨k0, l0⟩ := p
      simp only [Prod.mk.injEq] at heq
      rw [← heq.2]
      exact (ih l0 k0 hp).cons₂ _

theorem sound_of_sublist (s s' : Store) (hs : s.Sound) (hsub : s'.docs.Sublist s.docs) :
    s'.Sound :=
  ⟨wf_of_ids s s' hs.1 (hsub.map _), fun d hd => hs.2 d (hsub.subset hd)⟩

theorem deleteArtifact_sound (s s' : Store) (id : String) (body : JObj) (r : Response)
    (hs : s.Sound) (h : deleteArtifact s id body = some (r, s')) : s'.Sound := by
  unfold deleteArtifact at h
  split at h
  · simp at h; rw [← h.2]; exact hs
  · split at h
    · simp at h
    · simp at h; rw [← h.2]; exact hs
    · simp at h; rw [← h.2]; exact hs
    · split at h
      · simp at h
      · simp at h; rw [← h.2]; exact hs
      · rename_i cnt s1 hdel
        split at h
        · simp at h; rw [← h.2]; exact hs
        · simp at h
          rw [← h.2]
          unfold deleteOne at hdel
          rw [Res.bind_eq_ok] at hdel
          obtain ⟨q, _, hq⟩ := hdel
          rw [Res.map_eq_ok] at hq
          obtain ⟨p, hp, heq⟩ := hq
          obtain ⟨k0, l0⟩ := p
          simp only [Prod.mk.injEq] at heq
          apply sound_of_sublist s s1 hs
          rw [← heq.2]
          exact removeFirst_sublist q s.docs l0 k0 hp

theorem insertOne_sound (s s' : Store) (doc : JObj) (i : JVal) (hs : s.Sound)
    (hc : countersOk doc = true) (h : insertOne s doc = .ok (i, s')) : s'.Sound := by
  have key : ∀ (v : JVal) (stored : JObj) (nx : Nat), isArray (some v) = false →
      some v ∉ s.ids → getField "_id" stored = some v → countersOk stored = true →
      Store.Sound ⟨s.docs ++ [stored], nx⟩ := by
    intro v stored nx hv hfree hid hcs
    refine ⟨⟨?_, ?_⟩, ?_⟩
    · intro d hd
      rcases List.mem_append.1 hd with hd | hd
      · exact hs.1.1 d hd
      · rw [List.mem_singleton.1 hd, arrayId_eq, hid]
        exact hv
    · show ((s.docs ++ [stored]).map (getField "_id")).Nodup
      rw [List.map_append, List.map_singleton, hid]
      refine List.Nodup.append hs.1.2 (List.nodup_singleton _) ?_
      intro x hx hx'
      rw [List.mem_singleton.1 hx'] at hx
      exact hfree hx
    · intro d hd
      rcases List.mem_append.1 hd with hd | hd
      · exact hs.2 d hd
      · rw [List.mem_singleton.1 hd]
        exact hcs
  have hl : ∀ (v : JVal) (rest : JObj), (∀ k, k ≠ "_id" → getField k rest = getField k doc) →
      countersOk (("_id", v) :: rest) = true := by
    intro v rest hrest
    simp only [countersOk, likesKey, getField, Bool.and_eq_true] at hc ⊢
    simp only [show ("_id" : String) ≠ "likes" by decide, show ("_id" : String) ≠ "likedBy" by decide, if_false]
    rw [hrest _ (by decide), hrest _ (by decide)]
    exact hc
  unfold insertOne at h
  split at h
  · simp at h
  split at h
  · split at h
    · simp at h
    · rename_i hfree
      simp at h
      rw [← h.2]
      exact key (oid s.next) _ _ rfl hfree (by simp [getField]) (hl _ doc (fun _ _ => rfl))
  · split at h
    · simp at h
    · rename_i hfree
      simp at h
      rw [← h.2]
      exact key (oid s.next) _ _ rfl hfree (by simp [getField])
        (hl _ _ (fun k hk => getField_delField_ne hk doc))
  · simp at h
  · simp at h
  · rename_i v hv0 hv1 hv2 hv3
    split at h
    · simp at h
    · rename_i hfree
      simp at h
      rw [← h.2]
      refine key v _ _ ?_ hfree (by simp [getField])
        (hl _ _ (fun k hk => getField_delField_ne hk doc))
      cases v with
      | arr xs => exact absurd rfl (hv1 xs)
      | _ => rfl

theorem newArtifact_counters (a : JObj) (now : Nat) : countersOk (newArtifact a now) = true := by
  simp only [countersOk, Bool.and_eq_true]
  exact ⟨likesKey_isSome_of_num (getField_newArtifact_likes a now),
    by rw [getField_newArtifact_likedBy]; rfl⟩

theorem postArtifact_sound (s s' : Store) (a : JObj) (now : Nat) (r : Response)
    (hs : s.Sound) (h : postArtifact s a now = some (r, s')) : s'.Sound := by
  unfold postArtifact at h
  split at h
  · simp at h; rw [← h.2]; exact hs
  · split at h
    · rename_i i s1 hins
      simp at h
      rw [← h.2]
      exact insertOne_sound s s1 _ i hs (newArtifact_counters a now) hins
    · simp at h; rw [← h.2]; exact hs
    · simp at h

/-- Every collection the four mutating handlers can build from the empty one
has unique non-array `_id`s, numeric `likes` and array `likedBy`. -/
theorem reachable_sound (s : Store) (h : Reachable s) : s.Sound := by
  induction h with
  | empty => exact ⟨⟨by simp, by simp [Store.ids]⟩, by simp⟩
  | create a now _ hstep ih => exact postArtifact_sound _ _ a now _ ih hstep
  | update id body _ hstep ih => exact putArtifact_sound _ _ id body _ ih hstep
  | delete id body _ hstep ih => exact deleteArtifact_sound _ _ id body _ ih hstep
  | like id body _ hstep ih => exact likeArtifact_sound _ _ id body _ ih hstep

end Artifacts
